import Mathlib

/-!
Verification of `8_puzzle.py` (A* sliding puzzle solver) and `8_queens.py`
(backtracking N-queens solver).

Python grids are lists of lists.  In the puzzle a cell holds a positive
tile number or `None` for the blank, so a cell is modelled as `Option Nat`
and a grid as `List (List Cell)`.  Mutation-free Python helpers become
pure functions.  `copy.deepcopy` is the identity on values, so `swap`
builds the new grid with two functional updates that both read the
original grid, exactly as the source does.
-/

abbrev Cell := Option Nat

abbrev Board := List (List Cell)

def BOARD_SIZE : Nat := 3

/-- Read `state[r][c]`; out-of-range reads return a junk default. -/
def cellAt (state : Board) (r c : Nat) : Cell :=
  (state.getD r []).getD c (some 0)

/-- Functional update `state[r][c] = v`. -/
def setCell (state : Board) (r c : Nat) (v : Cell) : Board :=
  state.set r ((state.getD r []).set c v)

/-- `swap` from `8_puzzle.py`: copy the grid and exchange the contents of
cells `(r1, c1)` and `(r2, c2)`; both assignments read the original grid. -/
def swap (state : Board) (r1 c1 r2 c2 : Nat) : Board :=
  setCell (setCell state r1 c1 (cellAt state r2 c2)) r2 c2 (cellAt state r1 c1)

/-- `move_right` from `8_puzzle.py`. -/
def move_right (state : Board) (r c : Nat) : Board :=
  swap state r c r (c + 1)

/-- `move_left` from `8_puzzle.py`. -/
def move_left (state : Board) (r c : Nat) : Board :=
  swap state r c r (c - 1)

/-- `move_up` from `8_puzzle.py`. -/
def move_up (state : Board) (r c : Nat) : Board :=
  swap state r c (r - 1) c

/-- `move_down` from `8_puzzle.py`. -/
def move_down (state : Board) (r c : Nat) : Board :=
  swap state r c (r + 1) c

/-- The value used by `heuristic_cost` for a cell: Python replaces a falsy
(`None` or `0`) or negative value by `BOARD_SIZE * BOARD_SIZE`; negative
values cannot arise for `Nat`-valued tiles. -/
def tileValue (c : Cell) : Nat :=
  match c with
  | none => BOARD_SIZE * BOARD_SIZE
  | some v => if v = 0 then BOARD_SIZE * BOARD_SIZE else v

/-- The contribution of one cell to `heuristic_cost`:
`expected_row = (value - 1) / N`, `expected_col = value - N * expected_row - 1`,
distance is the sum of the absolute row and column offsets. -/
def cellTerm (x : Cell) (row_idx col_idx : Nat) : Nat :=
  let value := tileValue x
  let expected_row := (value - 1) / BOARD_SIZE
  let vertical_step := Nat.dist expected_row row_idx
  let expected_col := value - BOARD_SIZE * expected_row - 1
  let horizontal_step := Nat.dist expected_col col_idx
  vertical_step + horizontal_step

/-- `heuristic_cost` from `8_puzzle.py`: the doubly nested loop summing the
per-cell distances. -/
def heuristic_cost (state : Board) : Nat :=
  (List.range BOARD_SIZE).foldl (fun result row_idx =>
    (List.range BOARD_SIZE).foldl (fun result col_idx =>
      result + cellTerm (cellAt state row_idx col_idx) row_idx col_idx) result) 0

/-- Well-formed 3×3 grid: three rows of three cells. -/
def Wf3 (state : Board) : Prop :=
  state.length = 3 ∧ ∀ row ∈ state, row.length = 3

instance (state : Board) : Decidable (Wf3 state) := by
  unfold Wf3; infer_instance

/-- The goal arrangement `[[1,2,3],[4,5,6],[7,8,empty]]`. -/
def goalBoard : Board :=
  [[some 1, some 2, some 3], [some 4, some 5, some 6], [some 7, some 8, none]]

def flattenCells (state : Board) : List Cell :=
  state.flatten

def goalFlat : List Cell :=
  [some 1, some 2, some 3, some 4, some 5, some 6, some 7, some 8, none]

/-- A valid puzzle state: a 3×3 grid whose cells are a rearrangement of the
eight tiles and the single blank. -/
def ValidBoard (state : Board) : Prop :=
  Wf3 state ∧ (flattenCells state).Perm goalFlat

instance (state : Board) : Decidable (ValidBoard state) := by
  unfold ValidBoard; exact instDecidableAnd

theorem wf3_destruct (s : Board) (hs : Wf3 s) :
    ∃ a b c d e f g h i : Cell, s = [[a, b, c], [d, e, f], [g, h, i]] := by
  obtain ⟨hlen, hrows⟩ := hs
  rw [List.length_eq_three] at hlen
  obtain ⟨r0, r1, r2, rfl⟩ := hlen
  have h0 := hrows r0 (by simp)
  have h1 := hrows r1 (by simp)
  have h2 := hrows r2 (by simp)
  rw [List.length_eq_three] at h0 h1 h2
  obtain ⟨a, b, c, rfl⟩ := h0
  obtain ⟨d, e, f, rfl⟩ := h1
  obtain ⟨g, h, i, rfl⟩ := h2
  exact ⟨a, b, c, d, e, f, g, h, i, rfl⟩

theorem getD_set_self {α : Type} (l : List α) (i : Nat) (v d : α)
    (h : i < l.length) : (l.set i v).getD i d = v := by
  induction l generalizing i with
  | nil => simp at h
  | cons x xs ih =>
    cases i with
    | zero => simp [List.set, List.getD]
    | succ n =>
      simp only [List.set, List.getD_cons_succ]
      exact ih n (by simpa using h)

theorem getD_set_ne {α : Type} (l : List α) (i j : Nat) (v d : α)
    (h : i ≠ j) : (l.set i v).getD j d = l.getD j d := by
  induction l generalizing i j with
  | nil => simp [List.set]
  | cons x xs ih =>
    cases i with
    | zero =>
      cases j with
      | zero => exact absurd rfl h
      | succ m => simp [List.set, List.getD_cons_succ]
    | succ n =>
      cases j with
      | zero => simp [List.set, List.getD_cons_zero]
      | succ m =>
        simp only [List.set, List.getD_cons_succ]
        exact ih n m (by omega)

theorem set_getD_self {α : Type} (l : List α) (i : Nat) (d : α)
    (h : i < l.length) : l.set i (l.getD i d) = l := by
  induction l generalizing i with
  | nil => simp at h
  | cons x xs ih =>
    cases i with
    | zero => simp [List.set, List.getD]
    | succ n =>
      simp only [List.getD_cons_succ, List.set]
      rw [ih n (by simpa using h)]

theorem wf3_row_len (s : Board) (hs : Wf3 s) (r : Nat) (hr : r < 3) :
    (s.getD r []).length = 3 := by
  obtain ⟨hlen, hrows⟩ := hs
  have hr3 : r < s.length := by omega
  rw [List.getD_eq_getElem s [] hr3]
  exact hrows _ (List.getElem_mem hr3)

/-- A swap followed by the reverse swap restores the grid. -/
theorem swap_swap (s : Board) (hs : Wf3 s) (r1 c1 r2 c2 : Nat)
    (h1 : r1 < 3) (h2 : c1 < 3) (h3 : r2 < 3) (h4 : c2 < 3) :
    swap (swap s r1 c1 r2 c2) r2 c2 r1 c1 = s := by
  obtain ⟨a, b, c, d, e, f, g, h, i, rfl⟩ := wf3_destruct s hs
  interval_cases r1 <;> interval_cases c1 <;> interval_cases r2 <;>
    interval_cases c2 <;> rfl

theorem set_oob {α : Type} (l : List α) (i : Nat) (v : α)
    (h : l.length ≤ i) : l.set i v = l := by
  induction l generalizing i with
  | nil => rfl
  | cons x xs ih =>
    cases i with
    | zero => simp at h
    | succ n => simp only [List.set]; rw [ih n (by simpa using h)]

theorem wf3_setCell (s : Board) (hs : Wf3 s) (r c : Nat) (v : Cell) :
    Wf3 (setCell s r c v) := by
  by_cases hr : r < s.length
  · obtain ⟨hlen, hrows⟩ := hs
    refine ⟨by simp [setCell, hlen], ?_⟩
    intro row hrow
    unfold setCell at hrow
    rcases List.mem_or_eq_of_mem_set hrow with h | h
    · exact hrows _ h
    · subst h
      rw [List.length_set]
      exact hrows _ (by rw [List.getD_eq_getElem s [] hr]; exact List.getElem_mem hr)
  · unfold setCell
    rw [set_oob s r _ (by omega)]
    exact hs

theorem cellAt_setCell_self (s : Board) (hs : Wf3 s) (r c : Nat)
    (hr : r < 3) (hc : c < 3) (v : Cell) :
    cellAt (setCell s r c v) r c = v := by
  unfold cellAt setCell
  have hrl : r < s.length := by rw [hs.1]; exact hr
  rw [getD_set_self s r _ [] hrl]
  exact getD_set_self _ c v (some 0) (by rw [wf3_row_len s hs r hr]; omega)

theorem cellAt_setCell_ne (s : Board) (r c : Nat) (v : Cell) (r' c' : Nat)
    (h : r ≠ r' ∨ c ≠ c') :
    cellAt (setCell s r c v) r' c' = cellAt s r' c' := by
  unfold cellAt setCell
  by_cases hrr : r = r'
  · subst hrr
    have hcc : c ≠ c' := h.resolve_left (by simp)
    by_cases hlt : r < s.length
    · rw [getD_set_self s r _ [] hlt]
      exact getD_set_ne _ c c' v (some 0) hcc
    · rw [set_oob s r _ (by omega)]
  · rw [getD_set_ne s r r' _ [] hrr]

theorem cellAt_swap_snd (s : Board) (hs : Wf3 s) (r1 c1 r2 c2 : Nat)
    (h3 : r2 < 3) (h4 : c2 < 3) :
    cellAt (swap s r1 c1 r2 c2) r2 c2 = cellAt s r1 c1 := by
  unfold swap
  exact cellAt_setCell_self _ (wf3_setCell s hs r1 c1 _) r2 c2 h3 h4 _

theorem cellAt_swap_fst (s : Board) (hs : Wf3 s) (r1 c1 r2 c2 : Nat)
    (h1 : r1 < 3) (h2 : c1 < 3) (hne : r2 ≠ r1 ∨ c2 ≠ c1) :
    cellAt (swap s r1 c1 r2 c2) r1 c1 = cellAt s r2 c2 := by
  unfold swap
  rw [cellAt_setCell_ne _ r2 c2 _ r1 c1 hne]
  exact cellAt_setCell_self s hs r1 c1 h1 h2 _

theorem cellAt_swap_other (s : Board) (r1 c1 r2 c2 r c : Nat)
    (ha : r1 ≠ r ∨ c1 ≠ c) (hb : r2 ≠ r ∨ c2 ≠ c) :
    cellAt (swap s r1 c1 r2 c2) r c = cellAt s r c := by
  unfold swap
  rw [cellAt_setCell_ne _ r2 c2 _ r c hb, cellAt_setCell_ne _ r1 c1 _ r c ha]

/-- `get_available_actions` from `8_puzzle.py` locates the blank with this
scan: for each row, the first `None` column in it overwrites the position
(the Python `break` only leaves the inner loop). -/
def find_empty (state : Board) : Nat × Nat :=
  (List.range BOARD_SIZE).foldl (fun acc row_idx =>
    match (List.range BOARD_SIZE).find?
        (fun col_idx => cellAt state row_idx col_idx == none) with
    | some col_idx => (row_idx, col_idx)
    | none => acc) (0, 0)

/-- `get_available_actions` from `8_puzzle.py`: the legal moves of the blank,
in the source order up, down, left, right, captured as closures. -/
def get_available_actions (state : Board) : List (Board → Board) :=
  let empty_row := (find_empty state).1
  let empty_col := (find_empty state).2
  (if 0 < empty_row then [fun s => move_up s empty_row empty_col] else []) ++
  (if empty_row < BOARD_SIZE - 1 then [fun s => move_down s empty_row empty_col] else []) ++
  (if 0 < empty_col then [fun s => move_left s empty_row empty_col] else []) ++
  (if empty_col < BOARD_SIZE - 1 then [fun s => move_right s empty_row empty_col] else [])

theorem find_empty_spec (s : Board) (hv : ValidBoard s) :
    (find_empty s).1 < 3 ∧ (find_empty s).2 < 3 ∧
    cellAt s (find_empty s).1 (find_empty s).2 = none := by
  obtain ⟨a, b, c, d, e, f, g, h, i, rfl⟩ := wf3_destruct _ hv.1
  have hmem : (none : Cell) ∈ flattenCells [[a, b, c], [d, e, f], [g, h, i]] :=
    (hv.2.mem_iff).2 (by simp [goalFlat])
  unfold find_empty
  have hrange : List.range BOARD_SIZE = [0, 1, 2] := rfl
  rw [hrange]
  simp only [List.foldl_cons, List.foldl_nil]
  rcases h2 : List.find? (fun col_idx =>
      cellAt [[a, b, c], [d, e, f], [g, h, i]] 2 col_idx == none) [0, 1, 2] with _ | c2
  · rcases h1 : List.find? (fun col_idx =>
        cellAt [[a, b, c], [d, e, f], [g, h, i]] 1 col_idx == none) [0, 1, 2] with _ | c1
    · rcases h0 : List.find? (fun col_idx =>
          cellAt [[a, b, c], [d, e, f], [g, h, i]] 0 col_idx == none) [0, 1, 2] with _ | c0
      · exfalso
        have k0 := List.find?_eq_none.mp h0
        have k1 := List.find?_eq_none.mp h1
        have k2 := List.find?_eq_none.mp h2
        have n0 : a ≠ none := by simpa [cellAt] using k0 0 (by simp)
        have n1 : b ≠ none := by simpa [cellAt] using k0 1 (by simp)
        have n2 : c ≠ none := by simpa [cellAt] using k0 2 (by simp)
        have n3 : d ≠ none := by simpa [cellAt] using k1 0 (by simp)
        have n4 : e ≠ none := by simpa [cellAt] using k1 1 (by simp)
        have n5 : f ≠ none := by simpa [cellAt] using k1 2 (by simp)
        have n6 : g ≠ none := by simpa [cellAt] using k2 0 (by simp)
        have n7 : h ≠ none := by simpa [cellAt] using k2 1 (by simp)
        have n8 : i ≠ none := by simpa [cellAt] using k2 2 (by simp)
        simp only [flattenCells, List.flatten, List.append_nil, List.mem_append,
          List.mem_cons, List.not_mem_nil, or_false, List.mem_singleton] at hmem
        rcases hmem with (hx | hx | hx) | (hx | hx | hx) | (hx | hx | hx) <;> simp_all
      · have hcc : c0 ∈ [0, 1, 2] := List.mem_of_find?_eq_some h0
        have hp : cellAt [[a, b, c], [d, e, f], [g, h, i]] 0 c0 = none := by
          simpa using List.find?_some h0
        have hlt : c0 < 3 := by
          simp at hcc; rcases hcc with rfl | rfl | rfl <;> omega
        exact ⟨(by norm_num : (0 : Nat) < 3), hlt, hp⟩
    · have hcc : c1 ∈ [0, 1, 2] := List.mem_of_find?_eq_some h1
      have hp : cellAt [[a, b, c], [d, e, f], [g, h, i]] 1 c1 = none := by
        simpa using List.find?_some h1
      have hlt : c1 < 3 := by
        simp at hcc; rcases hcc with rfl | rfl | rfl <;> omega
      exact ⟨(by norm_num : (1 : Nat) < 3), hlt, hp⟩
  · have hcc : c2 ∈ [0, 1, 2] := List.mem_of_find?_eq_some h2
    have hp : cellAt [[a, b, c], [d, e, f], [g, h, i]] 2 c2 = none := by
      simpa using List.find?_some h2
    have hlt : c2 < 3 := by
      simp at hcc; rcases hcc with rfl | rfl | rfl <;> omega
    exact ⟨(by norm_num : (2 : Nat) < 3), hlt, hp⟩

/-- Claim C8: for every grid and every position of the empty cell, applying a
move and then its inverse move (up/down, down/up, left/right, right/left)
returns a grid equal to the original, for all directions where both moves
stay within board bounds. -/
theorem c8_move_then_inverse (s : Board) (hs : Wf3 s) (r c : Nat)
    (hr : r < 3) (hc : c < 3) (hblank : cellAt s r c = none) :
    (0 < r → move_down (move_up s r c) (r - 1) c = s) ∧
    (r < 2 → move_up (move_down s r c) (r + 1) c = s) ∧
    (0 < c → move_right (move_left s r c) r (c - 1) = s) ∧
    (c < 2 → move_left (move_right s r c) r (c + 1) = s) := by
  refine ⟨fun h => ?_, fun h => ?_, fun h => ?_, fun h => ?_⟩
  · unfold move_up move_down
    have he : r - 1 + 1 = r := by omega
    rw [he]
    exact swap_swap s hs r c (r - 1) c hr hc (by omega) hc
  · unfold move_up move_down
    have he : r + 1 - 1 = r := by omega
    rw [he]
    exact swap_swap s hs r c (r + 1) c hr hc (by omega) hc
  · unfold move_left move_right
    have he : c - 1 + 1 = c := by omega
    rw [he]
    exact swap_swap s hs r c r (c - 1) hr hc hr (by omega)
  · unfold move_left move_right
    have he : c + 1 - 1 = c := by omega
    rw [he]
    exact swap_swap s hs r c r (c + 1) hr hc hr (by omega)

def centerBlankBoard : Board :=
  [[some 1, some 2, some 3], [some 4, none, some 5], [some 6, some 7, some 8]]

/-- Witness for C8 at a concrete grid with the blank in the centre. -/
theorem c8_move_then_inverse_witness :
    move_down (move_up centerBlankBoard 1 1) 0 1 = centerBlankBoard ∧
    move_up (move_down centerBlankBoard 1 1) 2 1 = centerBlankBoard ∧
    move_right (move_left centerBlankBoard 1 1) 1 0 = centerBlankBoard ∧
    move_left (move_right centerBlankBoard 1 1) 1 2 = centerBlankBoard := by
  have hmain := c8_move_then_inverse centerBlankBoard (by decide) 1 1
    (by decide) (by decide) (by decide)
  exact ⟨hmain.1 (by decide), hmain.2.1 (by decide), hmain.2.2.1 (by decide),
    hmain.2.2.2 (by decide)⟩

/-- Claim C9: every available move returns a new grid that agrees with the
input grid everywhere except that the empty cell and the targeted adjacent
cell have their contents exchanged; the input grid itself is a value and is
not modified (the Python code deep-copies it before writing). -/
theorem c9_move_frame (s : Board) (hv : ValidBoard s) :
    ∀ f ∈ get_available_actions s, ∃ er ec r2 c2,
      er < 3 ∧ ec < 3 ∧ r2 < 3 ∧ c2 < 3 ∧
      cellAt s er ec = none ∧
      Nat.dist er r2 + Nat.dist ec c2 = 1 ∧
      cellAt (f s) er ec = cellAt s r2 c2 ∧
      cellAt (f s) r2 c2 = cellAt s er ec ∧
      (∀ r c, r < 3 → c < 3 → (r ≠ er ∨ c ≠ ec) → (r ≠ r2 ∨ c ≠ c2) →
        cellAt (f s) r c = cellAt s r c) := by
  intro f hf
  obtain ⟨h1, h2, h3⟩ := find_empty_spec s hv
  unfold get_available_actions at hf
  simp only [List.mem_append] at hf
  rcases hf with ((hu | hd) | hl) | hr
  · by_cases hguard : 0 < (find_empty s).1
    · rw [if_pos hguard] at hu
      rw [List.mem_singleton] at hu
      subst hu
      refine ⟨(find_empty s).1, (find_empty s).2, (find_empty s).1 - 1,
        (find_empty s).2, h1, h2, by omega, h2, h3, ?_, ?_, ?_, ?_⟩
      · simp [Nat.dist] <;> omega
      · exact cellAt_swap_fst s hv.1 _ _ _ _ h1 h2 (Or.inl (by omega))
      · exact cellAt_swap_snd s hv.1 _ _ _ _ (by omega) h2
      · intro r c _ _ hne1 hne2
        exact cellAt_swap_other s _ _ _ _ r c
          (hne1.imp Ne.symm Ne.symm) (hne2.imp Ne.symm Ne.symm)
    · rw [if_neg hguard] at hu
      simp at hu
  · by_cases hguard : (find_empty s).1 < BOARD_SIZE - 1
    · rw [if_pos hguard] at hd
      rw [List.mem_singleton] at hd
      subst hd
      have hg : (find_empty s).1 < 2 := hguard
      refine ⟨(find_empty s).1, (find_empty s).2, (find_empty s).1 + 1,
        (find_empty s).2, h1, h2, by omega, h2, h3, ?_, ?_, ?_, ?_⟩
      · simp [Nat.dist] <;> omega
      · exact cellAt_swap_fst s hv.1 _ _ _ _ h1 h2 (Or.inl (by omega))
      · exact cellAt_swap_snd s hv.1 _ _ _ _ (by omega) h2
      · intro r c _ _ hne1 hne2
        exact cellAt_swap_other s _ _ _ _ r c
          (hne1.imp Ne.symm Ne.symm) (hne2.imp Ne.symm Ne.symm)
    · rw [if_neg hguard] at hd
      simp at hd
  · by_cases hguard : 0 < (find_empty s).2
    · rw [if_pos hguard] at hl
      rw [List.mem_singleton] at hl
      subst hl
      refine ⟨(find_empty s).1, (find_empty s).2, (find_empty s).1,
        (find_empty s).2 - 1, h1, h2, h1, by omega, h3, ?_, ?_, ?_, ?_⟩
      · simp [Nat.dist] <;> omega
      · exact cellAt_swap_fst s hv.1 _ _ _ _ h1 h2 (Or.inr (by omega))
      · exact cellAt_swap_snd s hv.1 _ _ _ _ h1 (by omega)
      · intro r c _ _ hne1 hne2
        exact cellAt_swap_other s _ _ _ _ r c
          (hne1.imp Ne.symm Ne.symm) (hne2.imp Ne.symm Ne.symm)
    · rw [if_neg hguard] at hl
      simp at hl
  · by_cases hguard : (find_empty s).2 < BOARD_SIZE - 1
    · rw [if_pos hguard] at hr
      rw [List.mem_singleton] at hr
      subst hr
      have hg : (find_empty s).2 < 2 := hguard
      refine ⟨(find_empty s).1, (find_empty s).2, (find_empty s).1,
        (find_empty s).2 + 1, h1, h2, h1, by omega, h3, ?_, ?_, ?_, ?_⟩
      · simp [Nat.dist] <;> omega
      · exact cellAt_swap_fst s hv.1 _ _ _ _ h1 h2 (Or.inr (by omega))
      · exact cellAt_swap_snd s hv.1 _ _ _ _ h1 (by omega)
      · intro r c _ _ hne1 hne2
        exact cellAt_swap_other s _ _ _ _ r c
          (hne1.imp Ne.symm Ne.symm) (hne2.imp Ne.symm Ne.symm)
    · rw [if_neg hguard] at hr
      simp at hr

/-- Witness for C9: the up move on a concrete grid with the blank centred. -/
theorem c9_move_frame_witness :
    ∃ er ec r2 c2,
      er < 3 ∧ ec < 3 ∧ r2 < 3 ∧ c2 < 3 ∧
      cellAt centerBlankBoard er ec = none ∧
      Nat.dist er r2 + Nat.dist ec c2 = 1 ∧
      cellAt (move_up centerBlankBoard 1 1) er ec = cellAt centerBlankBoard r2 c2 ∧
      cellAt (move_up centerBlankBoard 1 1) r2 c2 = cellAt centerBlankBoard er ec ∧
      (∀ r c, r < 3 → c < 3 → (r ≠ er ∨ c ≠ ec) → (r ≠ r2 ∨ c ≠ c2) →
        cellAt (move_up centerBlankBoard 1 1) r c = cellAt centerBlankBoard r c) :=
  c9_move_frame centerBlankBoard (by decide) (fun s => move_up s 1 1)
    (by exact List.mem_cons_self _ _)

/-- One cell's contribution according to the specification: tile v has goal
row (v-1) div N and goal column (v-1) mod N; the empty marker contributes 0. -/
def specCellDistance (x : Cell) (r c : Nat) : Nat :=
  match x with
  | none => 0
  | some v => Nat.dist ((v - 1) / BOARD_SIZE) r + Nat.dist ((v - 1) % BOARD_SIZE) c

/-- The Manhattan-distance sum described by the specification, in which only
real tiles contribute. -/
def specManhattanSum (state : Board) : Nat :=
  (List.range BOARD_SIZE).foldl (fun acc r =>
    (List.range BOARD_SIZE).foldl (fun acc c =>
      acc + specCellDistance (cellAt state r c) r c) acc) 0

theorem heuristic_cost_explicit (a b c d e f g h i : Cell) :
    heuristic_cost [[a, b, c], [d, e, f], [g, h, i]] =
      0 + cellTerm a 0 0 + cellTerm b 0 1 + cellTerm c 0 2 +
      cellTerm d 1 0 + cellTerm e 1 1 + cellTerm f 1 2 +
      cellTerm g 2 0 + cellTerm h 2 1 + cellTerm i 2 2 := rfl

theorem specManhattanSum_explicit (a b c d e f g h i : Cell) :
    specManhattanSum [[a, b, c], [d, e, f], [g, h, i]] =
      0 + specCellDistance a 0 0 + specCellDistance b 0 1 + specCellDistance c 0 2 +
      specCellDistance d 1 0 + specCellDistance e 1 1 + specCellDistance f 1 2 +
      specCellDistance g 2 0 + specCellDistance h 2 1 + specCellDistance i 2 2 := rfl

theorem cellTerm_eq_spec : forall x, x ∈ goalFlat → x ≠ none →
    ∀ r, r < 3 → ∀ c, c < 3 → cellTerm x r c = specCellDistance x r c := by decide

theorem cellTerm_none (r c : Nat) :
    cellTerm none r c = Nat.dist 2 r + Nat.dist 2 c := rfl

theorem specCellDistance_none (r c : Nat) : specCellDistance none r c = 0 := rfl

/-- Counterexample to claim C3 as stated: on this valid grid the code's
heuristic also charges the blank for its distance from the bottom-right
cell, returning 16 where the tile-only Manhattan sum of the specification
is 12. -/
theorem c3_counterexample :
    ValidBoard [[none, some 1, some 2], [some 3, some 4, some 5],
      [some 6, some 7, some 8]] ∧
    heuristic_cost [[none, some 1, some 2], [some 3, some 4, some 5],
      [some 6, some 7, some 8]] = 16 ∧
    specManhattanSum [[none, some 1, some 2], [some 3, some 4, some 5],
      [some 6, some 7, some 8]] = 12 ∧ (16 : Nat) ≠ 12 := by decide

set_option maxHeartbeats 2000000 in
/-- Claim C3 (amended): for every valid grid, heuristic_cost returns the
specification's tile-only Manhattan sum plus the Manhattan distance of the
empty marker from the bottom-right cell (the code maps the blank to the
tile value N*N with goal cell (N-1, N-1) instead of skipping it). -/
theorem c3_heuristic_amended (s : Board) (hv : ValidBoard s) (br bc : Nat)
    (hbr : br < 3) (hbc : bc < 3) (hblank : cellAt s br bc = none) :
    heuristic_cost s = specManhattanSum s + (Nat.dist 2 br + Nat.dist 2 bc) := by
  obtain ⟨a, b, c, d, e, f, g, h, i, rfl⟩ := wf3_destruct _ hv.1
  have hperm := hv.2
  have hcount := hperm.count_eq none
  have hma : a ∈ goalFlat := hperm.subset (by simp [flattenCells])
  have hmb : b ∈ goalFlat := hperm.subset (by simp [flattenCells])
  have hmc : c ∈ goalFlat := hperm.subset (by simp [flattenCells])
  have hmd : d ∈ goalFlat := hperm.subset (by simp [flattenCells])
  have hme : e ∈ goalFlat := hperm.subset (by simp [flattenCells])
  have hmf : f ∈ goalFlat := hperm.subset (by simp [flattenCells])
  have hmg : g ∈ goalFlat := hperm.subset (by simp [flattenCells])
  have hmh : h ∈ goalFlat := hperm.subset (by simp [flattenCells])
  have hmi : i ∈ goalFlat := hperm.subset (by simp [flattenCells])
  interval_cases br <;> interval_cases bc
  · simp only [cellAt, List.getD_cons_zero, List.getD_cons_succ] at hblank
    subst hblank
    rw [heuristic_cost_explicit, specManhattanSum_explicit, cellTerm_none,
      specCellDistance_none]
    have eb : cellTerm b 0 1 = specCellDistance b 0 1 :=
      cellTerm_eq_spec b hmb (by rintro rfl; simp [flattenCells, goalFlat, List.count_cons] at hcount; all_goals omega) 0 (by omega) 1 (by omega)
    have ec : cellTerm c 0 2 = specCellDistance c 0 2 :=
      cellTerm_eq_spec c hmc (by rintro rfl; simp [flattenCells, goalFlat, List.count_cons] at hcount; all_goals omega) 0 (by omega) 2 (by omega)
    have ed : cellTerm d 1 0 = specCellDistance d 1 0 :=
      cellTerm_eq_spec d hmd (by rintro rfl; simp [flattenCells, goalFlat, List.count_cons] at hcount; all_goals omega) 1 (by omega) 0 (by omega)
    have ee : cellTerm e 1 1 = specCellDistance e 1 1 :=
      cellTerm_eq_spec e hme (by rintro rfl; simp [flattenCells, goalFlat, List.count_cons] at hcount; all_goals omega) 1 (by omega) 1 (by omega)
    have ef : cellTerm f 1 2 = specCellDistance f 1 2 :=
      cellTerm_eq_spec f hmf (by rintro rfl; simp [flattenCells, goalFlat, List.count_cons] at hcount; all_goals omega) 1 (by omega) 2 (by omega)
    have eg : cellTerm g 2 0 = specCellDistance g 2 0 :=
      cellTerm_eq_spec g hmg (by rintro rfl; simp [flattenCells, goalFlat, List.count_cons] at hcount; all_goals omega) 2 (by omega) 0 (by omega)
    have eh : cellTerm h 2 1 = specCellDistance h 2 1 :=
      cellTerm_eq_spec h hmh (by rintro rfl; simp [flattenCells, goalFlat, List.count_cons] at hcount; all_goals omega) 2 (by omega) 1 (by omega)
    have ei : cellTerm i 2 2 = specCellDistance i 2 2 :=
      cellTerm_eq_spec i hmi (by rintro rfl; simp [flattenCells, goalFlat, List.count_cons] at hcount; all_goals omega) 2 (by omega) 2 (by omega)
    omega
  · simp only [cellAt, List.getD_cons_zero, List.getD_cons_succ] at hblank
    subst hblank
    rw [heuristic_cost_explicit, specManhattanSum_explicit, cellTerm_none,
      specCellDistance_none]
    have ea : cellTerm a 0 0 = specCellDistance a 0 0 :=
      cellTerm_eq_spec a hma (by rintro rfl; simp [flattenCells, goalFlat, List.count_cons] at hcount; all_goals omega) 0 (by omega) 0 (by omega)
    have ec : cellTerm c 0 2 = specCellDistance c 0 2 :=
      cellTerm_eq_spec c hmc (by rintro rfl; simp [flattenCells, goalFlat, List.count_cons] at hcount; all_goals omega) 0 (by omega) 2 (by omega)
    have ed : cellTerm d 1 0 = specCellDistance d 1 0 :=
      cellTerm_eq_spec d hmd (by rintro rfl; simp [flattenCells, goalFlat, List.count_cons] at hcount; all_goals omega) 1 (by omega) 0 (by omega)
    have ee : cellTerm e 1 1 = specCellDistance e 1 1 :=
      cellTerm_eq_spec e hme (by rintro rfl; simp [flattenCells, goalFlat, List.count_cons] at hcount; all_goals omega) 1 (by omega) 1 (by omega)
    have ef : cellTerm f 1 2 = specCellDistance f 1 2 :=
      cellTerm_eq_spec f hmf (by rintro rfl; simp [flattenCells, goalFlat, List.count_cons] at hcount; all_goals omega) 1 (by omega) 2 (by omega)
    have eg : cellTerm g 2 0 = specCellDistance g 2 0 :=
      cellTerm_eq_spec g hmg (by rintro rfl; simp [flattenCells, goalFlat, List.count_cons] at hcount; all_goals omega) 2 (by omega) 0 (by omega)
    have eh : cellTerm h 2 1 = specCellDistance h 2 1 :=
      cellTerm_eq_spec h hmh (by rintro rfl; simp [flattenCells, goalFlat, List.count_cons] at hcount; all_goals omega) 2 (by omega) 1 (by omega)
    have ei : cellTerm i 2 2 = specCellDistance i 2 2 :=
      cellTerm_eq_spec i hmi (by rintro rfl; simp [flattenCells, goalFlat, List.count_cons] at hcount; all_goals omega) 2 (by omega) 2 (by omega)
    omega
  · simp only [cellAt, List.getD_cons_zero, List.getD_cons_succ] at hblank
    subst hblank
    rw [heuristic_cost_explicit, specManhattanSum_explicit, cellTerm_none,
      specCellDistance_none]
    have ea : cellTerm a 0 0 = specCellDistance a 0 0 :=
      cellTerm_eq_spec a hma (by rintro rfl; simp [flattenCells, goalFlat, List.count_cons] at hcount; all_goals omega) 0 (by omega) 0 (by omega)
    have eb : cellTerm b 0 1 = specCellDistance b 0 1 :=
      cellTerm_eq_spec b hmb (by rintro rfl; simp [flattenCells, goalFlat, List.count_cons] at hcount; all_goals omega) 0 (by omega) 1 (by omega)
    have ed : cellTerm d 1 0 = specCellDistance d 1 0 :=
      cellTerm_eq_spec d hmd (by rintro rfl; simp [flattenCells, goalFlat, List.count_cons] at hcount; all_goals omega) 1 (by omega) 0 (by omega)
    have ee : cellTerm e 1 1 = specCellDistance e 1 1 :=
      cellTerm_eq_spec e hme (by rintro rfl; simp [flattenCells, goalFlat, List.count_cons] at hcount; all_goals omega) 1 (by omega) 1 (by omega)
    have ef : cellTerm f 1 2 = specCellDistance f 1 2 :=
      cellTerm_eq_spec f hmf (by rintro rfl; simp [flattenCells, goalFlat, List.count_cons] at hcount; all_goals omega) 1 (by omega) 2 (by omega)
    have eg : cellTerm g 2 0 = specCellDistance g 2 0 :=
      cellTerm_eq_spec g hmg (by rintro rfl; simp [flattenCells, goalFlat, List.count_cons] at hcount; all_goals omega) 2 (by omega) 0 (by omega)
    have eh : cellTerm h 2 1 = specCellDistance h 2 1 :=
      cellTerm_eq_spec h hmh (by rintro rfl; simp [flattenCells, goalFlat, List.count_cons] at hcount; all_goals omega) 2 (by omega) 1 (by omega)
    have ei : cellTerm i 2 2 = specCellDistance i 2 2 :=
      cellTerm_eq_spec i hmi (by rintro rfl; simp [flattenCells, goalFlat, List.count_cons] at hcount; all_goals omega) 2 (by omega) 2 (by omega)
    omega
  · simp only [cellAt, List.getD_cons_zero, List.getD_cons_succ] at hblank
    subst hblank
    rw [heuristic_cost_explicit, specManhattanSum_explicit, cellTerm_none,
      specCellDistance_none]
    have ea : cellTerm a 0 0 = specCellDistance a 0 0 :=
      cellTerm_eq_spec a hma (by rintro rfl; simp [flattenCells, goalFlat, List.count_cons] at hcount; all_goals omega) 0 (by omega) 0 (by omega)
    have eb : cellTerm b 0 1 = specCellDistance b 0 1 :=
      cellTerm_eq_spec b hmb (by rintro rfl; simp [flattenCells, goalFlat, List.count_cons] at hcount; all_goals omega) 0 (by omega) 1 (by omega)
    have ec : cellTerm c 0 2 = specCellDistance c 0 2 :=
      cellTerm_eq_spec c hmc (by rintro rfl; simp [flattenCells, goalFlat, List.count_cons] at hcount; all_goals omega) 0 (by omega) 2 (by omega)
    have ee : cellTerm e 1 1 = specCellDistance e 1 1 :=
      cellTerm_eq_spec e hme (by rintro rfl; simp [flattenCells, goalFlat, List.count_cons] at hcount; all_goals omega) 1 (by omega) 1 (by omega)
    have ef : cellTerm f 1 2 = specCellDistance f 1 2 :=
      cellTerm_eq_spec f hmf (by rintro rfl; simp [flattenCells, goalFlat, List.count_cons] at hcount; all_goals omega) 1 (by omega) 2 (by omega)
    have eg : cellTerm g 2 0 = specCellDistance g 2 0 :=
      cellTerm_eq_spec g hmg (by rintro rfl; simp [flattenCells, goalFlat, List.count_cons] at hcount; all_goals omega) 2 (by omega) 0 (by omega)
    have eh : cellTerm h 2 1 = specCellDistance h 2 1 :=
      cellTerm_eq_spec h hmh (by rintro rfl; simp [flattenCells, goalFlat, List.count_cons] at hcount; all_goals omega) 2 (by omega) 1 (by omega)
    have ei : cellTerm i 2 2 = specCellDistance i 2 2 :=
      cellTerm_eq_spec i hmi (by rintro rfl; simp [flattenCells, goalFlat, List.count_cons] at hcount; all_goals omega) 2 (by omega) 2 (by omega)
    omega
  · simp only [cellAt, List.getD_cons_zero, List.getD_cons_succ] at hblank
    subst hblank
    rw [heuristic_cost_explicit, specManhattanSum_explicit, cellTerm_none,
      specCellDistance_none]
    have ea : cellTerm a 0 0 = specCellDistance a 0 0 :=
      cellTerm_eq_spec a hma (by rintro rfl; simp [flattenCells, goalFlat, List.count_cons] at hcount; all_goals omega) 0 (by omega) 0 (by omega)
    have eb : cellTerm b 0 1 = specCellDistance b 0 1 :=
      cellTerm_eq_spec b hmb (by rintro rfl; simp [flattenCells, goalFlat, List.count_cons] at hcount; all_goals omega) 0 (by omega) 1 (by omega)
    have ec : cellTerm c 0 2 = specCellDistance c 0 2 :=
      cellTerm_eq_spec c hmc (by rintro rfl; simp [flattenCells, goalFlat, List.count_cons] at hcount; all_goals omega) 0 (by omega) 2 (by omega)
    have ed : cellTerm d 1 0 = specCellDistance d 1 0 :=
      cellTerm_eq_spec d hmd (by rintro rfl; simp [flattenCells, goalFlat, List.count_cons] at hcount; all_goals omega) 1 (by omega) 0 (by omega)
    have ef : cellTerm f 1 2 = specCellDistance f 1 2 :=
      cellTerm_eq_spec f hmf (by rintro rfl; simp [flattenCells, goalFlat, List.count_cons] at hcount; all_goals omega) 1 (by omega) 2 (by omega)
    have eg : cellTerm g 2 0 = specCellDistance g 2 0 :=
      cellTerm_eq_spec g hmg (by rintro rfl; simp [flattenCells, goalFlat, List.count_cons] at hcount; all_goals omega) 2 (by omega) 0 (by omega)
    have eh : cellTerm h 2 1 = specCellDistance h 2 1 :=
      cellTerm_eq_spec h hmh (by rintro rfl; simp [flattenCells, goalFlat, List.count_cons] at hcount; all_goals omega) 2 (by omega) 1 (by omega)
    have ei : cellTerm i 2 2 = specCellDistance i 2 2 :=
      cellTerm_eq_spec i hmi (by rintro rfl; simp [flattenCells, goalFlat, List.count_cons] at hcount; all_goals omega) 2 (by omega) 2 (by omega)
    omega
  · simp only [cellAt, List.getD_cons_zero, List.getD_cons_succ] at hblank
    subst hblank
    rw [heuristic_cost_explicit, specManhattanSum_explicit, cellTerm_none,
      specCellDistance_none]
    have ea : cellTerm a 0 0 = specCellDistance a 0 0 :=
      cellTerm_eq_spec a hma (by rintro rfl; simp [flattenCells, goalFlat, List.count_cons] at hcount; all_goals omega) 0 (by omega) 0 (by omega)
    have eb : cellTerm b 0 1 = specCellDistance b 0 1 :=
      cellTerm_eq_spec b hmb (by rintro rfl; simp [flattenCells, goalFlat, List.count_cons] at hcount; all_goals omega) 0 (by omega) 1 (by omega)
    have ec : cellTerm c 0 2 = specCellDistance c 0 2 :=
      cellTerm_eq_spec c hmc (by rintro rfl; simp [flattenCells, goalFlat, List.count_cons] at hcount; all_goals omega) 0 (by omega) 2 (by omega)
    have ed : cellTerm d 1 0 = specCellDistance d 1 0 :=
      cellTerm_eq_spec d hmd (by rintro rfl; simp [flattenCells, goalFlat, List.count_cons] at hcount; all_goals omega) 1 (by omega) 0 (by omega)
    have ee : cellTerm e 1 1 = specCellDistance e 1 1 :=
      cellTerm_eq_spec e hme (by rintro rfl; simp [flattenCells, goalFlat, List.count_cons] at hcount; all_goals omega) 1 (by omega) 1 (by omega)
    have eg : cellTerm g 2 0 = specCellDistance g 2 0 :=
      cellTerm_eq_spec g hmg (by rintro rfl; simp [flattenCells, goalFlat, List.count_cons] at hcount; all_goals omega) 2 (by omega) 0 (by omega)
    have eh : cellTerm h 2 1 = specCellDistance h 2 1 :=
      cellTerm_eq_spec h hmh (by rintro rfl; simp [flattenCells, goalFlat, List.count_cons] at hcount; all_goals omega) 2 (by omega) 1 (by omega)
    have ei : cellTerm i 2 2 = specCellDistance i 2 2 :=
      cellTerm_eq_spec i hmi (by rintro rfl; simp [flattenCells, goalFlat, List.count_cons] at hcount; all_goals omega) 2 (by omega) 2 (by omega)
    omega
  · simp only [cellAt, List.getD_cons_zero, List.getD_cons_succ] at hblank
    subst hblank
    rw [heuristic_cost_explicit, specManhattanSum_explicit, cellTerm_none,
      specCellDistance_none]
    have ea : cellTerm a 0 0 = specCellDistance a 0 0 :=
      cellTerm_eq_spec a hma (by rintro rfl; simp [flattenCells, goalFlat, List.count_cons] at hcount; all_goals omega) 0 (by omega) 0 (by omega)
    have eb : cellTerm b 0 1 = specCellDistance b 0 1 :=
      cellTerm_eq_spec b hmb (by rintro rfl; simp [flattenCells, goalFlat, List.count_cons] at hcount; all_goals omega) 0 (by omega) 1 (by omega)
    have ec : cellTerm c 0 2 = specCellDistance c 0 2 :=
      cellTerm_eq_spec c hmc (by rintro rfl; simp [flattenCells, goalFlat, List.count_cons] at hcount; all_goals omega) 0 (by omega) 2 (by omega)
    have ed : cellTerm d 1 0 = specCellDistance d 1 0 :=
      cellTerm_eq_spec d hmd (by rintro rfl; simp [flattenCells, goalFlat, List.count_cons] at hcount; all_goals omega) 1 (by omega) 0 (by omega)
    have ee : cellTerm e 1 1 = specCellDistance e 1 1 :=
      cellTerm_eq_spec e hme (by rintro rfl; simp [flattenCells, goalFlat, List.count_cons] at hcount; all_goals omega) 1 (by omega) 1 (by omega)
    have ef : cellTerm f 1 2 = specCellDistance f 1 2 :=
      cellTerm_eq_spec f hmf (by rintro rfl; simp [flattenCells, goalFlat, List.count_cons] at hcount; all_goals omega) 1 (by omega) 2 (by omega)
    have eh : cellTerm h 2 1 = specCellDistance h 2 1 :=
      cellTerm_eq_spec h hmh (by rintro rfl; simp [flattenCells, goalFlat, List.count_cons] at hcount; all_goals omega) 2 (by omega) 1 (by omega)
    have ei : cellTerm i 2 2 = specCellDistance i 2 2 :=
      cellTerm_eq_spec i hmi (by rintro rfl; simp [flattenCells, goalFlat, List.count_cons] at hcount; all_goals omega) 2 (by omega) 2 (by omega)
    omega
  · simp only [cellAt, List.getD_cons_zero, List.getD_cons_succ] at hblank
    subst hblank
    rw [heuristic_cost_explicit, specManhattanSum_explicit, cellTerm_none,
      specCellDistance_none]
    have ea : cellTerm a 0 0 = specCellDistance a 0 0 :=
      cellTerm_eq_spec a hma (by rintro rfl; simp [flattenCells, goalFlat, List.count_cons] at hcount; all_goals omega) 0 (by omega) 0 (by omega)
    have eb : cellTerm b 0 1 = specCellDistance b 0 1 :=
      cellTerm_eq_spec b hmb (by rintro rfl; simp [flattenCells, goalFlat, List.count_cons] at hcount; all_goals omega) 0 (by omega) 1 (by omega)
    have ec : cellTerm c 0 2 = specCellDistance c 0 2 :=
      cellTerm_eq_spec c hmc (by rintro rfl; simp [flattenCells, goalFlat, List.count_cons] at hcount; all_goals omega) 0 (by omega) 2 (by omega)
    have ed : cellTerm d 1 0 = specCellDistance d 1 0 :=
      cellTerm_eq_spec d hmd (by rintro rfl; simp [flattenCells, goalFlat, List.count_cons] at hcount; all_goals omega) 1 (by omega) 0 (by omega)
    have ee : cellTerm e 1 1 = specCellDistance e 1 1 :=
      cellTerm_eq_spec e hme (by rintro rfl; simp [flattenCells, goalFlat, List.count_cons] at hcount; all_goals omega) 1 (by omega) 1 (by omega)
    have ef : cellTerm f 1 2 = specCellDistance f 1 2 :=
      cellTerm_eq_spec f hmf (by rintro rfl; simp [flattenCells, goalFlat, List.count_cons] at hcount; all_goals omega) 1 (by omega) 2 (by omega)
    have eg : cellTerm g 2 0 = specCellDistance g 2 0 :=
      cellTerm_eq_spec g hmg (by rintro rfl; simp [flattenCells, goalFlat, List.count_cons] at hcount; all_goals omega) 2 (by omega) 0 (by omega)
    have ei : cellTerm i 2 2 = specCellDistance i 2 2 :=
      cellTerm_eq_spec i hmi (by rintro rfl; simp [flattenCells, goalFlat, List.count_cons] at hcount; all_goals omega) 2 (by omega) 2 (by omega)
    omega
  · simp only [cellAt, List.getD_cons_zero, List.getD_cons_succ] at hblank
    subst hblank
    rw [heuristic_cost_explicit, specManhattanSum_explicit, cellTerm_none,
      specCellDistance_none]
    have ea : cellTerm a 0 0 = specCellDistance a 0 0 :=
      cellTerm_eq_spec a hma (by rintro rfl; simp [flattenCells, goalFlat, List.count_cons] at hcount; all_goals omega) 0 (by omega) 0 (by omega)
    have eb : cellTerm b 0 1 = specCellDistance b 0 1 :=
      cellTerm_eq_spec b hmb (by rintro rfl; simp [flattenCells, goalFlat, List.count_cons] at hcount; all_goals omega) 0 (by omega) 1 (by omega)
    have ec : cellTerm c 0 2 = specCellDistance c 0 2 :=
      cellTerm_eq_spec c hmc (by rintro rfl; simp [flattenCells, goalFlat, List.count_cons] at hcount; all_goals omega) 0 (by omega) 2 (by omega)
    have ed : cellTerm d 1 0 = specCellDistance d 1 0 :=
      cellTerm_eq_spec d hmd (by rintro rfl; simp [flattenCells, goalFlat, List.count_cons] at hcount; all_goals omega) 1 (by omega) 0 (by omega)
    have ee : cellTerm e 1 1 = specCellDistance e 1 1 :=
      cellTerm_eq_spec e hme (by rintro rfl; simp [flattenCells, goalFlat, List.count_cons] at hcount; all_goals omega) 1 (by omega) 1 (by omega)
    have ef : cellTerm f 1 2 = specCellDistance f 1 2 :=
      cellTerm_eq_spec f hmf (by rintro rfl; simp [flattenCells, goalFlat, List.count_cons] at hcount; all_goals omega) 1 (by omega) 2 (by omega)
    have eg : cellTerm g 2 0 = specCellDistance g 2 0 :=
      cellTerm_eq_spec g hmg (by rintro rfl; simp [flattenCells, goalFlat, List.count_cons] at hcount; all_goals omega) 2 (by omega) 0 (by omega)
    have eh : cellTerm h 2 1 = specCellDistance h 2 1 :=
      cellTerm_eq_spec h hmh (by rintro rfl; simp [flattenCells, goalFlat, List.count_cons] at hcount; all_goals omega) 2 (by omega) 1 (by omega)
    omega

/-- Witness for the amended C3 at the blank-in-corner grid. -/
theorem c3_heuristic_amended_witness :
    heuristic_cost [[none, some 1, some 2], [some 3, some 4, some 5],
        [some 6, some 7, some 8]] =
      specManhattanSum [[none, some 1, some 2], [some 3, some 4, some 5],
        [some 6, some 7, some 8]] + (Nat.dist 2 0 + Nat.dist 2 0) :=
  c3_heuristic_amended _ (by decide) 0 0 (by decide) (by decide) (by decide)

/-!
The 8-queens solver from `8_queens.py`.  A board is an 8×8 grid of booleans.
The Python `backtracking` mutates its board argument; the embedding threads
the board explicitly, returning the flag together with the final board.  The
row `for` loop becomes the extra `row_idx` argument, which starts at 0.
-/

abbrev QBoard := List (List Bool)

def qcell (board : QBoard) (r c : Nat) : Bool :=
  (board.getD r []).getD c false

def qset (board : QBoard) (r c : Nat) (v : Bool) : QBoard :=
  board.set r ((board.getD r []).set c v)

/-- The four diagonal probes for offset `i` in `is_configuration_valid`;
Python computes them with signed arithmetic and bounds-checks each. -/
def diag_free (board : QBoard) (row_idx col_idx i : Nat) : Bool :=
  ([((row_idx : Int) - i, (col_idx : Int) - i),
    ((row_idx : Int) + i, (col_idx : Int) + i),
    ((row_idx : Int) - i, (col_idx : Int) + i),
    ((row_idx : Int) + i, (col_idx : Int) - i)] : List (Int × Int)).all
    (fun rc => !(decide (0 ≤ rc.1) && decide (rc.1 < 8) && decide (0 ≤ rc.2) &&
      decide (rc.2 < 8) && qcell board rc.1.toNat rc.2.toNat))

/-- `is_configuration_valid` from `8_queens.py`: no queen shares a row,
column or diagonal with another; the Python early `return False` is the
failure of the corresponding conjunct. -/
def is_configuration_valid (board : QBoard) : Bool :=
  (List.range 8).all fun row_idx =>
    (List.range 8).all fun col_idx =>
      !(qcell board row_idx col_idx) ||
      ((List.range 8).all fun i =>
        (decide (i = row_idx) || !(qcell board i col_idx)) &&
        (decide (i = col_idx) || !(qcell board row_idx i)) &&
        (decide (i = 0) || diag_free board row_idx col_idx i))

/-- `backtracking` from `8_queens.py`, fuel-transformed so that it reduces
by structural recursion.  `row_idx` is the loop variable of the Python
`for row_idx in range(BOARD_SIZE)` loop; the board is threaded through
explicitly because Python mutates it in place. -/
def backtracking_fuel : Nat → QBoard → Nat → Nat → Bool × QBoard
  | 0, board, _, _ => (false, board)
  | Nat.succ n, board, col_idx, row_idx =>
    if 8 ≤ row_idx then (false, board)
    else
      let board1 := qset board row_idx col_idx true
      if is_configuration_valid board1 then
        if 8 ≤ col_idx + 1 then (true, board1)
        else
          match backtracking_fuel n board1 (col_idx + 1) 0 with
          | (true, board2) => (true, board2)
          | (false, board2) =>
              backtracking_fuel n (qset board2 row_idx col_idx false) col_idx
                (row_idx + 1)
      else backtracking_fuel n (qset board1 row_idx col_idx false) col_idx
        (row_idx + 1)

/-- `backtracking` with its fuel set to the decreasing measure
`(8 - col_idx) * 9 + (8 - row_idx)`: every recursive call strictly
decreases this quantity, so the fuel never runs out for the calls the
Python program can make. -/
def backtracking (board : QBoard) (col_idx : Nat) (row_idx : Nat) :
    Bool × QBoard :=
  backtracking_fuel ((8 - col_idx) * 9 + (8 - row_idx)) board col_idx row_idx

def WfQ (board : QBoard) : Prop :=
  board.length = 8 ∧ ∀ row ∈ board, row.length = 8

instance (board : QBoard) : Decidable (WfQ board) := by
  unfold WfQ; infer_instance

theorem wfq_qset (b : QBoard) (hw : WfQ b) (r c : Nat) (v : Bool) :
    WfQ (qset b r c v) := by
  by_cases hr : r < b.length
  · obtain ⟨hlen, hrows⟩ := hw
    refine ⟨by simp [qset, hlen], ?_⟩
    intro row hrow
    unfold qset at hrow
    rcases List.mem_or_eq_of_mem_set hrow with h | h
    · exact hrows _ h
    · subst h
      rw [List.length_set]
      exact hrows _ (by rw [List.getD_eq_getElem b [] hr]; exact List.getElem_mem hr)
  · unfold qset
    rw [set_oob b r _ (by omega)]
    exact hw

theorem wfq_row_len (b : QBoard) (hw : WfQ b) (r : Nat) (hr : r < 8) :
    (b.getD r []).length = 8 := by
  obtain ⟨hlen, hrows⟩ := hw
  have hr8 : r < b.length := by omega
  rw [List.getD_eq_getElem b [] hr8]
  exact hrows _ (List.getElem_mem hr8)

theorem qcell_qset_ne (b : QBoard) (r c : Nat) (v : Bool) (r' c' : Nat)
    (h : r ≠ r' ∨ c ≠ c') :
    qcell (qset b r c v) r' c' = qcell b r' c' := by
  unfold qcell qset
  by_cases hrr : r = r'
  · subst hrr
    have hcc : c ≠ c' := h.resolve_left (by simp)
    by_cases hlt : r < b.length
    · rw [getD_set_self b r _ [] hlt]
      exact getD_set_ne _ c c' v false hcc
    · rw [set_oob b r _ (by omega)]
  · rw [getD_set_ne b r r' _ [] hrr]

theorem qset_qset (b : QBoard) (r c : Nat) (v w : Bool) :
    qset (qset b r c v) r c w = qset b r c w := by
  unfold qset
  by_cases hr : r < b.length
  · rw [getD_set_self b r _ [] hr, List.set_set, List.set_set]
  · rw [set_oob b r _ (by omega), set_oob b r _ (by omega)]

theorem qset_reset (b : QBoard) (hw : WfQ b) (r c : Nat) (hr : r < 8)
    (hfalse : c < 8 → qcell b r c = false) :
    qset (qset b r c true) r c false = b := by
  rw [qset_qset]
  have hrl : r < b.length := by rw [hw.1]; exact hr
  by_cases hc : c < 8
  · have hq := hfalse hc
    unfold qcell at hq
    unfold qset
    conv in (b.getD r []).set c false => rw [← hq]
    rw [set_getD_self _ c false (by rw [wfq_row_len b hw r hr]; omega)]
    exact set_getD_self b r [] hrl
  · unfold qset
    rw [set_oob (b.getD r []) c false (by rw [wfq_row_len b hw r hr]; omega)]
    exact set_getD_self b r [] hrl

theorem backtracking_restore_aux :
    ∀ (fuel : Nat) (board : QBoard) (col_idx row_idx : Nat),
    WfQ board →
    (∀ r c, r < 8 → col_idx ≤ c → c < 8 → qcell board r c = false) →
    ∀ b2, backtracking_fuel fuel board col_idx row_idx = (false, b2) →
    b2 = board := by
  intro fuel
  induction fuel with
  | zero =>
    intro board col row hw hclear b2 hres
    exact ((Prod.mk.injEq _ _ _ _).mp hres).2.symm
  | succ n ih =>
    intro board col row hw hclear b2 hres
    rw [backtracking_fuel] at hres
    by_cases hrow : 8 ≤ row
    · rw [if_pos hrow] at hres
      exact ((Prod.mk.injEq _ _ _ _).mp hres).2.symm
    · rw [if_neg hrow] at hres
      simp only [] at hres
      by_cases hvalid : is_configuration_valid (qset board row col true) = true
      · rw [if_pos hvalid] at hres
        by_cases hcol : 8 ≤ col + 1
        · rw [if_pos hcol] at hres
          simp at hres
        · rw [if_neg hcol] at hres
          rcases hrec : backtracking_fuel n (qset board row col true) (col + 1) 0
            with ⟨tf, board2⟩
          rw [hrec] at hres
          cases tf
          · have hW1 : WfQ (qset board row col true) := wfq_qset board hw row col true
            have hC1 : ∀ r c, r < 8 → col + 1 ≤ c → c < 8 →
                qcell (qset board row col true) r c = false := by
              intro r c hr hc1 hc2
              rw [qcell_qset_ne board row col true r c (Or.inr (by omega))]
              exact hclear r c hr (by omega) hc2
            have hb2 : board2 = qset board row col true :=
              ih (qset board row col true) (col + 1) 0 hW1 hC1 board2 hrec
            subst hb2
            simp only [] at hres
            rw [qset_reset board hw row col (by omega)
              (fun hc8 => hclear row col (by omega) (le_refl col) hc8)] at hres
            exact ih board col (row + 1) hw hclear b2 hres
          · simp at hres
      · rw [if_neg hvalid] at hres
        rw [qset_reset board hw row col (by omega)
          (fun hc8 => hclear row col (by omega) (le_refl col) hc8)] at hres
        exact ih board col (row + 1) hw hclear b2 hres

def allTrueQBoard : QBoard := List.replicate 8 (List.replicate 8 true)

/-- Counterexample to claim C10 as stated: starting from a board whose cells
are all `true`, the failed search returns `false` but hands back a board
whose first column has been cleared, so the caller's board is not restored. -/
theorem c10_counterexample :
    (backtracking allTrueQBoard 0 0).1 = false ∧
    (backtracking allTrueQBoard 0 0).2 ≠ allTrueQBoard := by decide

/-- Claim C10 (amended): if every cell in the columns from `col_idx`
rightwards is clear on entry, a `backtracking` call that returns `false`
hands back exactly the board it was given: every attempted queen placement
has been reverted.  (Without that precondition the reverts write `false`
over cells that were `true` on entry, as the counterexample shows.) -/
theorem c10_backtracking_restores (board : QBoard) (col_idx row_idx : Nat)
    (hw : WfQ board)
    (hclear : ∀ r c, r < 8 → col_idx ≤ c → c < 8 → qcell board r c = false)
    (b2 : QBoard) (hres : backtracking board col_idx row_idx = (false, b2)) :
    b2 = board :=
  backtracking_restore_aux ((8 - col_idx) * 9 + (8 - row_idx)) board col_idx
    row_idx hw hclear b2 hres

def colZeroQBoard : QBoard := List.replicate 8 (true :: List.replicate 7 false)

/-- Witness for the amended C10: with queens filling column 0 the search in
column 7 fails and returns the entry board unchanged. -/
theorem c10_backtracking_restores_witness :
    (backtracking colZeroQBoard 7 0).2 = colZeroQBoard :=
  c10_backtracking_restores colZeroQBoard 7 0 (by decide)
    (by
      intro r c hr hc1 hc2
      interval_cases r <;> interval_cases c <;> rfl)
    (backtracking colZeroQBoard 7 0).2 (by decide)

/-- The inversion count computed by `is_problem_solvable` in `8_puzzle.py`:
the double loop over pairs `i < j`, ignoring entries equal to `size`, which
is `len(values)` and stands for the empty marker. -/
def solvable_inversions (values : List Nat) : Nat :=
  (List.range values.length).foldl (fun inv i =>
    (List.range' (i + 1) (values.length - (i + 1))).foldl (fun inv j =>
      if values.getD i 0 ≠ values.length ∧ values.getD j 0 ≠ values.length ∧
          values.getD j 0 < values.getD i 0
      then inv + 1 else inv) inv) 0

/-- `is_problem_solvable` from `8_puzzle.py`. -/
def is_problem_solvable (values : List Nat) : Bool :=
  solvable_inversions values % 2 == 0

/-- The inversion count in the specification's words: pairs `(i, j)` with
`i < j` whose entries are both real tiles (neither is the label standing
for the empty marker) and are out of order. -/
def spec_inversion_count (emptyLabel : Nat) (values : List Nat) : Nat :=
  (List.range values.length).foldl (fun inv i =>
    (List.range' (i + 1) (values.length - (i + 1))).foldl (fun inv j =>
      if values.getD i 0 ≠ emptyLabel ∧ values.getD j 0 ≠ emptyLabel ∧
          values.getD j 0 < values.getD i 0
      then inv + 1 else inv) inv) 0

/-- The materialisation loop of `generate_random_problem`: values are laid
out row-major and the maximal value `N*N` becomes the empty marker. -/
def state_from_values (values : List Nat) : Board :=
  (List.range BOARD_SIZE).map (fun row_idx =>
    (List.range BOARD_SIZE).map (fun col_idx =>
      let value := values.getD (row_idx * BOARD_SIZE + col_idx) 0
      if value = BOARD_SIZE * BOARD_SIZE then none else some value))

/-- `generate_random_problem` from `8_puzzle.py`.  `random.shuffle` is
modelled by an explicit stream of shuffle outcomes: the rejection loop
keeps reshuffling until `is_problem_solvable` holds, i.e. it materialises
the first solvable entry of the stream (`none` when the stream runs out). -/
def generate_random_problem (shuffles : List (List Nat)) : Option Board :=
  match shuffles.find? (fun values => is_problem_solvable values) with
  | some values => some (state_from_values values)
  | none => none

/-- The flat value sequence of a grid, with the empty marker read back as
the label `N*N` (the inverse of `state_from_values` on valid grids). -/
def board_values (state : Board) : List Nat :=
  (flattenCells state).map tileValue

theorem list_eq_nine (l : List Nat) (h : l.length = 9) :
    ∃ v0 v1 v2 v3 v4 v5 v6 v7 v8 : Nat,
      l = [v0, v1, v2, v3, v4, v5, v6, v7, v8] := by
  rcases l with _ | ⟨v0, l⟩; · simp at h
  rcases l with _ | ⟨v1, l⟩; · simp at h
  rcases l with _ | ⟨v2, l⟩; · simp at h
  rcases l with _ | ⟨v3, l⟩; · simp at h
  rcases l with _ | ⟨v4, l⟩; · simp at h
  rcases l with _ | ⟨v5, l⟩; · simp at h
  rcases l with _ | ⟨v6, l⟩; · simp at h
  rcases l with _ | ⟨v7, l⟩; · simp at h
  rcases l with _ | ⟨v8, l⟩; · simp at h
  rcases l with _ | ⟨v9, l⟩
  · exact ⟨v0, v1, v2, v3, v4, v5, v6, v7, v8, rfl⟩
  · simp at h

theorem roundtrip_cell (v : Nat) (h1 : 1 ≤ v) (h2 : v ≤ 9) :
    tileValue (if v = 9 then none else some v) = v := by
  by_cases hv : v = 9
  · rw [if_pos hv]
    show (9 : Nat) = v
    omega
  · rw [if_neg hv]
    show (if v = 0 then BOARD_SIZE * BOARD_SIZE else v) = v
    rw [if_neg (by omega)]

theorem board_values_state_from_values (values : List Nat)
    (hperm : values.Perm (List.range' 1 9)) :
    board_values (state_from_values values) = values := by
  have hlen : values.length = 9 := by simpa using hperm.length_eq
  obtain ⟨v0, v1, v2, v3, v4, v5, v6, v7, v8, rfl⟩ := list_eq_nine values hlen
  have hm : ∀ v ∈ ([v0, v1, v2, v3, v4, v5, v6, v7, v8] : List Nat),
      1 ≤ v ∧ v < 10 := by
    intro v hv
    simpa [List.mem_range'_1] using hperm.subset hv
  show [tileValue (if v0 = 9 then none else some v0),
        tileValue (if v1 = 9 then none else some v1),
        tileValue (if v2 = 9 then none else some v2),
        tileValue (if v3 = 9 then none else some v3),
        tileValue (if v4 = 9 then none else some v4),
        tileValue (if v5 = 9 then none else some v5),
        tileValue (if v6 = 9 then none else some v6),
        tileValue (if v7 = 9 then none else some v7),
        tileValue (if v8 = 9 then none else some v8)] = _
  have r0 := roundtrip_cell v0 (hm v0 (by simp)).1 (by have := (hm v0 (by simp)).2; omega)
  have r1 := roundtrip_cell v1 (hm v1 (by simp)).1 (by have := (hm v1 (by simp)).2; omega)
  have r2 := roundtrip_cell v2 (hm v2 (by simp)).1 (by have := (hm v2 (by simp)).2; omega)
  have r3 := roundtrip_cell v3 (hm v3 (by simp)).1 (by have := (hm v3 (by simp)).2; omega)
  have r4 := roundtrip_cell v4 (hm v4 (by simp)).1 (by have := (hm v4 (by simp)).2; omega)
  have r5 := roundtrip_cell v5 (hm v5 (by simp)).1 (by have := (hm v5 (by simp)).2; omega)
  have r6 := roundtrip_cell v6 (hm v6 (by simp)).1 (by have := (hm v6 (by simp)).2; omega)
  have r7 := roundtrip_cell v7 (hm v7 (by simp)).1 (by have := (hm v7 (by simp)).2; omega)
  have r8 := roundtrip_cell v8 (hm v8 (by simp)).1 (by have := (hm v8 (by simp)).2; omega)
  rw [r0, r1, r2, r3, r4, r5, r6, r7, r8]

/-- Claim C7: `is_problem_solvable` is true exactly when the number of
out-of-order pairs of real tiles (ignoring the empty-marker label `N*N`) is
even, and every state produced by `generate_random_problem` satisfies
`is_problem_solvable`. -/
theorem c7_solvability :
    (∀ N values, values.Perm (List.range' 1 (N * N)) →
      (is_problem_solvable values = true ↔
        Even (spec_inversion_count (N * N) values))) ∧
    (∀ shuffles st, (∀ l ∈ shuffles, l.Perm (List.range' 1 9)) →
      generate_random_problem shuffles = some st →
      is_problem_solvable (board_values st) = true) := by
  constructor
  · intro N values hperm
    have hlen : values.length = N * N := by simpa using hperm.length_eq
    have key : solvable_inversions values = spec_inversion_count (N * N) values := by
      unfold solvable_inversions spec_inversion_count
      rw [hlen]
    simp [is_problem_solvable, key, Nat.even_iff]
  · intro shuffles st hall hgen
    unfold generate_random_problem at hgen
    rcases hfind : shuffles.find? (fun values => is_problem_solvable values)
      with _ | values
    · rw [hfind] at hgen; exact absurd hgen (by simp)
    · rw [hfind] at hgen
      have hst : st = state_from_values values := by
        injection hgen with hh; exact hh.symm
      subst hst
      have hsolv : is_problem_solvable values = true := by
        simpa using List.find?_some hfind
      rw [board_values_state_from_values values
        (hall values (List.mem_of_find?_eq_some hfind))]
      exact hsolv

/-- Witness for C7: the inversion criterion at a concrete odd permutation,
and the generator applied to the identity shuffle stream. -/
theorem c7_solvability_witness :
    (is_problem_solvable [2, 1, 3, 4, 5, 6, 7, 8, 9] = true ↔
      Even (spec_inversion_count 9 [2, 1, 3, 4, 5, 6, 7, 8, 9])) ∧
    is_problem_solvable
      (board_values ((generate_random_problem
        [[1, 2, 3, 4, 5, 6, 7, 8, 9]]).getD [])) = true := by
  constructor
  · exact c7_solvability.1 3 [2, 1, 3, 4, 5, 6, 7, 8, 9] (by decide)
  · exact c7_solvability.2 [[1, 2, 3, 4, 5, 6, 7, 8, 9]]
      ((generate_random_problem [[1, 2, 3, 4, 5, 6, 7, 8, 9]]).getD [])
      (by decide) (by rfl)

/-- A frontier entry as pushed by `solve_puzzle`: the stored priority, the
`uuid.uuid4()` tie-break token (modelled as a natural number drawn from a
stream of draws), and the node.  A `StateWithParent` chain is modelled as
the nonempty list of states from the node back to the root. -/
structure Entry where
  priority : Nat
  key : Nat
  path : List Board
deriving DecidableEq, Repr

/-- The loop state of `solve_puzzle`: the frontier, the visited set (a list
used with set membership), and the index of the next tie-break draw. -/
structure SearchState where
  queue : List Entry
  visited : List Board
  ctr : Nat
deriving DecidableEq, Repr

/-- Frontier ordering: `PriorityQueue` pops the tuple minimal in the
lexicographic order on (priority, key); keys from distinct uuid4 draws
break priority ties, and on a full tie the earliest entry is taken. -/
def entryLe (e1 e2 : Entry) : Bool :=
  decide (e1.priority < e2.priority) ||
  (decide (e1.priority = e2.priority) && decide (e1.key ≤ e2.key))

/-- `queue.get()`: remove the minimal entry. -/
def popMin : List Entry → Option (Entry × List Entry)
  | [] => none
  | e :: es =>
    match popMin es with
    | none => some (e, [])
    | some (m, r) => if entryLe e m then some (e, es) else some (m, e :: r)

/-- The successor loop of `solve_puzzle`: skip states already in the
visited set; a successor with heuristic cost 0 is returned immediately as
the goal; otherwise push it with priority `cost + parent_cost`, where
`parent_cost` is the priority stored with the popped entry, consuming one
tie-break draw. -/
def expand (ks : Nat → Nat) (parent_cost : Nat) (parent_path : List Board)
    (visited : List Board) :
    List Board → List Entry → Nat → Except (List Board) (List Entry × Nat)
  | [], queue, ctr => Except.ok (queue, ctr)
  | state :: rest, queue, ctr =>
    if state ∈ visited then
      expand ks parent_cost parent_path visited rest queue ctr
    else
      let cost := heuristic_cost state
      if cost = 0 then Except.error (state :: parent_path)
      else
        expand ks parent_cost parent_path visited rest
          (queue ++ [⟨cost + parent_cost, ks ctr, state :: parent_path⟩])
          (ctr + 1)

inductive StepResult where
  | found (p : List Board)
  | exhausted
  | next (st : SearchState)
deriving DecidableEq, Repr

/-- One iteration of the `while not queue.empty()` loop of `solve_puzzle`:
pop the minimal entry, add its state to the visited set, generate the
successors and process them with `expand`. -/
def step (ks : Nat → Nat) (st : SearchState) : StepResult :=
  match popMin st.queue with
  | none => StepResult.exhausted
  | some (e, rest) =>
    let current_state := e.path.headD []
    let visited' := current_state :: st.visited
    let successors := (get_available_actions current_state).map
      (fun action => action current_state)
    match expand ks e.priority e.path visited' successors rest st.ctr with
    | Except.error p => StepResult.found p
    | Except.ok (queue', ctr') => StepResult.next ⟨queue', visited', ctr'⟩

/-- The initial loop state: the root is pushed with priority 0 and the
first tie-break draw. -/
def init_state (ks : Nat → Nat) (initial_state : Board) : SearchState :=
  ⟨[⟨0, ks 0, [initial_state]⟩], [], 1⟩

/-- The `while` loop of `solve_puzzle` with explicit fuel.  `none` means
the fuel ran out; `some none` is the Python `return None` (frontier
exhausted); `some (some p)` is a returned solution node, as the list of
states from the goal back to the root. -/
def solveLoop (ks : Nat → Nat) : Nat → SearchState → Option (Option (List Board))
  | 0, _ => none
  | Nat.succ n, st =>
    match step ks st with
    | StepResult.found p => some (some p)
    | StepResult.exhausted => some none
    | StepResult.next st' => solveLoop ks n st'

/-- `solve_puzzle` from `8_puzzle.py`, parametrised by the stream of
tie-break draws and the loop fuel. -/
def solve_puzzle (ks : Nat → Nat) (fuel : Nat) (initial_state : Board) :
    Option (Option (List Board)) :=
  solveLoop ks fuel (init_state ks initial_state)

/-- The sequence of states popped from the frontier and expanded, in order
(the last entry is also recorded when its expansion ends the search). -/
def popsTrace (ks : Nat → Nat) : Nat → SearchState → List Board
  | 0, _ => []
  | Nat.succ n, st =>
    match popMin st.queue with
    | none => []
    | some (e, _) =>
      match step ks st with
      | StepResult.next st' => e.path.headD [] :: popsTrace ks n st'
      | _ => [e.path.headD []]

/-- Claim C2 (code-bug exhibit): expanding the root of the state
`[[1,2,3],[4,5,6],[empty,7,8]]` pushes the up-successor with priority
`heuristic_cost(child) + parent_priority = 6 + 0 = 6`, whereas the child's
path cost from the root is one move of cost 1, so the f-value `g + h`
required by the claim is `1 + 6 = 7`.  The stored priority, which already
contains the parent's heuristic, is reused as if it were a path cost on
every deeper push. -/
theorem c2_priority_mixes_parent_priority :
    step (fun n => n) (init_state (fun n => n)
      [[some 1, some 2, some 3], [some 4, some 5, some 6],
        [none, some 7, some 8]]) =
    StepResult.next
      { queue := [
          { priority := 6, key := 1,
            path := [[[some 1, some 2, some 3], [none, some 5, some 6],
                      [some 4, some 7, some 8]],
                     [[some 1, some 2, some 3], [some 4, some 5, some 6],
                      [none, some 7, some 8]]] },
          { priority := 2, key := 2,
            path := [[[some 1, some 2, some 3], [some 4, some 5, some 6],
                      [some 7, none, some 8]],
                     [[some 1, some 2, some 3], [some 4, some 5, some 6],
                      [none, some 7, some 8]]] }],
        visited := [[[some 1, some 2, some 3], [some 4, some 5, some 6],
          [none, some 7, some 8]]],
        ctr := 3 } ∧
    heuristic_cost [[some 1, some 2, some 3], [none, some 5, some 6],
      [some 4, some 7, some 8]] = 6 ∧
    (6 : Nat) ≠ 1 + 6 := by decide

theorem popMin_cons_ne_none (x : Entry) (xs : List Entry) :
    popMin (x :: xs) ≠ none := by
  rw [popMin]
  rcases popMin xs with _ | ⟨m, r⟩
  · simp
  · simp only []
    split <;> simp

theorem popMin_perm : ∀ (l : List Entry) (e : Entry) (r : List Entry),
    popMin l = some (e, r) → l.Perm (e :: r) := by
  intro l
  induction l with
  | nil => intro e r h; simp [popMin] at h
  | cons x xs ih =>
    intro e r h
    rw [popMin] at h
    rcases hx : popMin xs with _ | ⟨m, r'⟩
    · rw [hx] at h
      simp only [Option.some.injEq, Prod.mk.injEq] at h
      obtain ⟨rfl, rfl⟩ := h
      have hnil : xs = [] := by
        cases xs with
        | nil => rfl
        | cons y ys => exact absurd hx (popMin_cons_ne_none y ys)
      subst hnil
      exact List.Perm.refl _
    · rw [hx] at h
      simp only [] at h
      split at h
      · simp only [Option.some.injEq, Prod.mk.injEq] at h
        obtain ⟨rfl, rfl⟩ := h
        exact List.Perm.refl _
      · simp only [Option.some.injEq, Prod.mk.injEq] at h
        obtain ⟨rfl, rfl⟩ := h
        exact ((ih m r' hx).cons x).trans (List.Perm.swap m x r')

theorem expand_mem (ks : Nat → Nat) (pc : Nat) (pp : List Board)
    (vis : List Board) :
    ∀ (succs : List Board) (q : List Entry) (ctr : Nat) (q2 : List Entry)
      (ctr2 : Nat),
    expand ks pc pp vis succs q ctr = Except.ok (q2, ctr2) →
    ∀ e ∈ q2, e ∈ q ∨ e.path.headD [] ∉ vis := by
  intro succs
  induction succs with
  | nil =>
    intro q ctr q2 ctr2 h e he
    rw [expand] at h
    simp only [Except.ok.injEq, Prod.mk.injEq] at h
    obtain ⟨rfl, rfl⟩ := h
    exact Or.inl he
  | cons s rest ih =>
    intro q ctr q2 ctr2 h e he
    rw [expand] at h
    by_cases hs : s ∈ vis
    · rw [if_pos hs] at h
      exact ih q ctr q2 ctr2 h e he
    · rw [if_neg hs] at h
      simp only [] at h
      by_cases hc : heuristic_cost s = 0
      · rw [if_pos hc] at h
        exact absurd h (by simp)
      · rw [if_neg hc] at h
        rcases ih _ _ q2 ctr2 h e he with hq | hv
        · rcases List.mem_append.mp hq with hq1 | hq2
          · exact Or.inl hq1
          · right
            have : e = ⟨heuristic_cost s + pc, ks ctr, s :: pp⟩ := by
              simpa using hq2
            subst this
            simpa using hs
        · exact Or.inr hv

/-- Claim C4 (amended): the visited set prevents a state from ever being
pushed again once it has been expanded: after a step, every frontier entry
either was already in the previous frontier or carries a state that was
not in the visited set (which includes the state just expanded) when it
was pushed.  It does not prevent re-expansion of duplicate entries that
entered the frontier before the first of them was popped, as the
counterexample shows. -/
theorem c4_no_push_after_expansion (ks : Nat → Nat) (st st' : SearchState)
    (hstep : step ks st = StepResult.next st')
    (e : Entry) (he : e ∈ st'.queue) :
    e ∈ st.queue ∨ e.path.headD [] ∉ st'.visited := by
  unfold step at hstep
  rcases hpop : popMin st.queue with _ | ⟨e0, rest⟩
  · rw [hpop] at hstep
    exact absurd hstep (by simp)
  · rw [hpop] at hstep
    simp only [] at hstep
    rcases hexp : expand ks e0.priority e0.path
        (e0.path.headD [] :: st.visited)
        ((get_available_actions (e0.path.headD [])).map
          (fun action => action (e0.path.headD []))) rest st.ctr
      with p | ⟨q2, ctr2⟩
    · rw [hexp] at hstep
      exact absurd hstep (by simp)
    · rw [hexp] at hstep
      simp only [StepResult.next.injEq] at hstep
      subst hstep
      rcases expand_mem ks e0.priority e0.path _ _ rest st.ctr q2 ctr2 hexp
          e he with hq | hv
      · exact Or.inl ((popMin_perm st.queue e0 rest hpop).symm.subset
          (List.mem_cons_of_mem e0 hq))
      · exact Or.inr hv

def c2Board : Board :=
  [[some 1, some 2, some 3], [some 4, some 5, some 6], [none, some 7, some 8]]

def c2UpChild : Board :=
  [[some 1, some 2, some 3], [none, some 5, some 6], [some 4, some 7, some 8]]

def c2RightChild : Board :=
  [[some 1, some 2, some 3], [some 4, some 5, some 6], [some 7, none, some 8]]

def c4WitnessNext : SearchState :=
  { queue := [{ priority := 6, key := 1, path := [c2UpChild, c2Board] },
              { priority := 2, key := 2, path := [c2RightChild, c2Board] }],
    visited := [c2Board],
    ctr := 3 }

/-- Witness for the amended C4: a concrete step whose new frontier entry
carries a state outside the updated visited set. -/
theorem c4_no_push_after_expansion_witness :
    ({ priority := 6, key := 1, path := [c2UpChild, c2Board] } : Entry) ∈
      (init_state (fun n => n) c2Board).queue ∨
    ([c2UpChild, c2Board] : List Board).headD [] ∉ c4WitnessNext.visited :=
  c4_no_push_after_expansion (fun n => n) (init_state (fun n => n) c2Board)
    c4WitnessNext (by decide)
    { priority := 6, key := 1, path := [c2UpChild, c2Board] } (by decide)

set_option maxRecDepth 8000 in
/-- Counterexample to claim C4 as stated: in this run the state content
`[[1,2,3],[8,5,6],[7,4,empty]]` is popped from the frontier and expanded
twice — two entries carrying it were pushed before the first was popped,
and the pop performs no visited check. -/
theorem c4_counterexample :
    (popsTrace (fun n => 1000 - n) 34 (init_state (fun n => 1000 - n)
        [[some 1, some 2, some 3], [some 8, none, some 4],
         [some 7, some 6, some 5]])).count
      [[some 1, some 2, some 3], [some 8, some 5, some 6],
       [some 7, some 4, none]] = 2 := by decide

/-- Counterexample to claim C5 as stated: two runs of `solve_puzzle` on the
same initial state whose uuid draws differ expand different states at the
second step.  The first expansion pushes the down- and right-successors
both at priority 8, and the randomly drawn keys decide which of the tied
entries is popped, so the expansion order is neither deterministic across
runs nor insertion-independent. -/
theorem c5_counterexample :
    popsTrace (fun n => n) 2 (init_state (fun n => n)
      [[none, some 2, some 3], [some 4, some 5, some 6],
       [some 7, some 8, some 1]]) ≠
    popsTrace (fun n => 1000 - n) 2 (init_state (fun n => 1000 - n)
      [[none, some 2, some 3], [some 4, some 5, some 6],
       [some 7, some 8, some 1]]) := by decide

/-- Claim C5 (amended): the frontier pop is deterministic given the drawn
keys: the popped entry is minimal in the lexicographic order on
(priority, stored key).  Because the stored keys are fresh `uuid4` draws,
the order among equal-priority entries follows the random draws: a run is
reproducible only when the draws are identical, not across runs. -/
theorem c5_pop_is_lex_minimal (l : List Entry) (e : Entry) (r : List Entry)
    (h : popMin l = some (e, r)) :
    ∀ e2 ∈ l, e.priority < e2.priority ∨
      (e.priority = e2.priority ∧ e.key ≤ e2.key) := by
  induction l generalizing e r with
  | nil => simp [popMin] at h
  | cons x xs ih =>
    rw [popMin] at h
    rcases hx : popMin xs with _ | ⟨m, r'⟩
    · rw [hx] at h
      simp only [Option.some.injEq, Prod.mk.injEq] at h
      obtain ⟨rfl, rfl⟩ := h
      have hnil : xs = [] := by
        cases xs with
        | nil => rfl
        | cons y ys => exact absurd hx (popMin_cons_ne_none y ys)
      subst hnil
      intro e2 he2
      simp only [List.mem_singleton] at he2
      subst he2
      right
      exact ⟨rfl, le_refl _⟩
    · rw [hx] at h
      simp only [] at h
      split at h
      · simp only [Option.some.injEq, Prod.mk.injEq] at h
        obtain ⟨rfl, rfl⟩ := h
        rename_i hle
        unfold entryLe at hle
        simp only [Bool.or_eq_true, Bool.and_eq_true, decide_eq_true_eq] at hle
        intro e2 he2
        rcases List.mem_cons.mp he2 with rfl | he2
        · right; exact ⟨rfl, le_refl _⟩
        · rcases ih m r' hx e2 he2 with hlt | ⟨heq, hk⟩ <;> omega
      · simp only [Option.some.injEq, Prod.mk.injEq] at h
        obtain ⟨rfl, rfl⟩ := h
        rename_i hle
        unfold entryLe at hle
        simp only [Bool.or_eq_true, Bool.and_eq_true, decide_eq_true_eq,
          not_or, not_and, not_lt, not_le] at hle
        intro e2 he2
        rcases List.mem_cons.mp he2 with rfl | he2
        · omega
        · exact ih m r' hx e2 he2

/-- Witness for the amended C5: the pop on a concrete two-entry frontier
whose entries tie at priority 8 picks the smaller key. -/
theorem c5_pop_is_lex_minimal_witness :
    (8 : Nat) < 8 ∨ ((8 : Nat) = 8 ∧ (2 : Nat) ≤ 7) :=
  c5_pop_is_lex_minimal
    [{ priority := 8, key := 7, path := [goalBoard] },
     { priority := 8, key := 2, path := [goalBoard] }]
    { priority := 8, key := 2, path := [goalBoard] }
    [{ priority := 8, key := 7, path := [goalBoard] }]
    (by decide)
    { priority := 8, key := 7, path := [goalBoard] } (by decide)

theorem foldl_ite_count (p : Nat → Prop) [DecidablePred p] :
    ∀ (l : List Nat) (acc : Nat),
    l.foldl (fun inv j => if p j then inv + 1 else inv) acc =
      acc + l.countP (fun j => decide (p j)) := by
  intro l
  induction l with
  | nil => intro acc; simp
  | cons x xs ih =>
    intro acc
    rw [List.foldl_cons, ih, List.countP_cons]
    by_cases h : p x <;> simp [h] <;> omega

theorem foldl_add_sum (g : Nat → Nat) :
    ∀ (l : List Nat) (acc : Nat),
    l.foldl (fun a i => a + g i) acc = acc + (l.map g).sum := by
  intro l
  induction l with
  | nil => intro acc; simp
  | cons x xs ih =>
    intro acc
    rw [List.foldl_cons, List.map_cons, List.sum_cons, ih]
    omega

set_option maxRecDepth 4000 in
theorem solvable_inversions_nine (v0 v1 v2 v3 v4 v5 v6 v7 v8 : Nat) :
    solvable_inversions [v0, v1, v2, v3, v4, v5, v6, v7, v8] =
      (if v0 ≠ 9 ∧ v1 ≠ 9 ∧ v1 < v0 then 1 else 0) +
      (if v0 ≠ 9 ∧ v2 ≠ 9 ∧ v2 < v0 then 1 else 0) +
      (if v0 ≠ 9 ∧ v3 ≠ 9 ∧ v3 < v0 then 1 else 0) +
      (if v0 ≠ 9 ∧ v4 ≠ 9 ∧ v4 < v0 then 1 else 0) +
      (if v0 ≠ 9 ∧ v5 ≠ 9 ∧ v5 < v0 then 1 else 0) +
      (if v0 ≠ 9 ∧ v6 ≠ 9 ∧ v6 < v0 then 1 else 0) +
      (if v0 ≠ 9 ∧ v7 ≠ 9 ∧ v7 < v0 then 1 else 0) +
      (if v0 ≠ 9 ∧ v8 ≠ 9 ∧ v8 < v0 then 1 else 0) +
      (if v1 ≠ 9 ∧ v2 ≠ 9 ∧ v2 < v1 then 1 else 0) +
      (if v1 ≠ 9 ∧ v3 ≠ 9 ∧ v3 < v1 then 1 else 0) +
      (if v1 ≠ 9 ∧ v4 ≠ 9 ∧ v4 < v1 then 1 else 0) +
      (if v1 ≠ 9 ∧ v5 ≠ 9 ∧ v5 < v1 then 1 else 0) +
      (if v1 ≠ 9 ∧ v6 ≠ 9 ∧ v6 < v1 then 1 else 0) +
      (if v1 ≠ 9 ∧ v7 ≠ 9 ∧ v7 < v1 then 1 else 0) +
      (if v1 ≠ 9 ∧ v8 ≠ 9 ∧ v8 < v1 then 1 else 0) +
      (if v2 ≠ 9 ∧ v3 ≠ 9 ∧ v3 < v2 then 1 else 0) +
      (if v2 ≠ 9 ∧ v4 ≠ 9 ∧ v4 < v2 then 1 else 0) +
      (if v2 ≠ 9 ∧ v5 ≠ 9 ∧ v5 < v2 then 1 else 0) +
      (if v2 ≠ 9 ∧ v6 ≠ 9 ∧ v6 < v2 then 1 else 0) +
      (if v2 ≠ 9 ∧ v7 ≠ 9 ∧ v7 < v2 then 1 else 0) +
      (if v2 ≠ 9 ∧ v8 ≠ 9 ∧ v8 < v2 then 1 else 0) +
      (if v3 ≠ 9 ∧ v4 ≠ 9 ∧ v4 < v3 then 1 else 0) +
      (if v3 ≠ 9 ∧ v5 ≠ 9 ∧ v5 < v3 then 1 else 0) +
      (if v3 ≠ 9 ∧ v6 ≠ 9 ∧ v6 < v3 then 1 else 0) +
      (if v3 ≠ 9 ∧ v7 ≠ 9 ∧ v7 < v3 then 1 else 0) +
      (if v3 ≠ 9 ∧ v8 ≠ 9 ∧ v8 < v3 then 1 else 0) +
      (if v4 ≠ 9 ∧ v5 ≠ 9 ∧ v5 < v4 then 1 else 0) +
      (if v4 ≠ 9 ∧ v6 ≠ 9 ∧ v6 < v4 then 1 else 0) +
      (if v4 ≠ 9 ∧ v7 ≠ 9 ∧ v7 < v4 then 1 else 0) +
      (if v4 ≠ 9 ∧ v8 ≠ 9 ∧ v8 < v4 then 1 else 0) +
      (if v5 ≠ 9 ∧ v6 ≠ 9 ∧ v6 < v5 then 1 else 0) +
      (if v5 ≠ 9 ∧ v7 ≠ 9 ∧ v7 < v5 then 1 else 0) +
      (if v5 ≠ 9 ∧ v8 ≠ 9 ∧ v8 < v5 then 1 else 0) +
      (if v6 ≠ 9 ∧ v7 ≠ 9 ∧ v7 < v6 then 1 else 0) +
      (if v6 ≠ 9 ∧ v8 ≠ 9 ∧ v8 < v6 then 1 else 0) +
      (if v7 ≠ 9 ∧ v8 ≠ 9 ∧ v8 < v7 then 1 else 0) := by
  unfold solvable_inversions
  rw [show ([v0, v1, v2, v3, v4, v5, v6, v7, v8] : List Nat).length = 9 from rfl]
  simp only [foldl_ite_count]
  simp only [foldl_add_sum]
  rw [show List.range 9 = ([0, 1, 2, 3, 4, 5, 6, 7, 8] : List Nat) from rfl]
  simp only [List.map_cons, List.map_nil, List.sum_cons, List.sum_nil]
  rw [show List.range' (0 + 1) (9 - (0 + 1)) = ([1, 2, 3, 4, 5, 6, 7, 8] : List Nat) from rfl]
  rw [show List.range' (1 + 1) (9 - (1 + 1)) = ([2, 3, 4, 5, 6, 7, 8] : List Nat) from rfl]
  rw [show List.range' (2 + 1) (9 - (2 + 1)) = ([3, 4, 5, 6, 7, 8] : List Nat) from rfl]
  rw [show List.range' (3 + 1) (9 - (3 + 1)) = ([4, 5, 6, 7, 8] : List Nat) from rfl]
  rw [show List.range' (4 + 1) (9 - (4 + 1)) = ([5, 6, 7, 8] : List Nat) from rfl]
  rw [show List.range' (5 + 1) (9 - (5 + 1)) = ([6, 7, 8] : List Nat) from rfl]
  rw [show List.range' (6 + 1) (9 - (6 + 1)) = ([7, 8] : List Nat) from rfl]
  rw [show List.range' (7 + 1) (9 - (7 + 1)) = ([8] : List Nat) from rfl]
  rw [show List.range' (8 + 1) (9 - (8 + 1)) = ([] : List Nat) from rfl]
  simp only [List.countP_cons, List.countP_nil]
  simp only [List.getD_cons_zero, List.getD_cons_succ, decide_eq_true_eq]
  omega

theorem tv_ne_nine : ∀ x ∈ goalFlat, x ≠ none → tileValue x ≠ 9 := by decide

theorem blank_left (P : Prop) [Decidable P] :
    (if ((9 : Nat) ≠ 9 ∧ P) then 1 else 0) = 0 := by simp

theorem blank_mid (a : Nat) (P : Prop) [Decidable P] :
    (if (a ≠ 9 ∧ (9 : Nat) ≠ 9 ∧ P) then 1 else 0) = 0 := by simp

theorem flip_sum (a b : Nat) (ha : a ≠ 9) (hb : b ≠ 9) (hab : a ≠ b) :
    ((if a ≠ 9 ∧ b ≠ 9 ∧ b < a then 1 else 0) +
     (if b ≠ 9 ∧ a ≠ 9 ∧ a < b then 1 else 0) : Nat) = 1 := by
  rcases Nat.lt_trichotomy a b with hlt | heq | hgt
  · rw [if_neg (by rintro ⟨-, -, hba⟩; omega), if_pos ⟨hb, ha, hlt⟩]
  · exact absurd heq hab
  · rw [if_pos ⟨ha, hb, hgt⟩, if_neg (by rintro ⟨-, -, hab2⟩; omega)]

/-- The pairs the later entries of `ys` form with `x` that count as
inversions: both real tiles (not the label 9) and out of order. -/
def countInv (x : Nat) (ys : List Nat) : Nat :=
  ys.countP (fun y => decide (x ≠ 9 ∧ y ≠ 9 ∧ y < x))

/-- A structural reformulation of the inversion count of
`is_problem_solvable` for nine-element sequences. -/
def invPairs : List Nat → Nat
  | [] => 0
  | x :: xs => countInv x xs + invPairs xs

theorem countInv_nine (ys : List Nat) : countInv 9 ys = 0 := by
  induction ys with
  | nil => rfl
  | cons y ys ih =>
    simp [countInv, List.countP_cons] at ih ⊢
    all_goals omega

theorem perm_swap4 (a x y b : Nat) (l : List Nat) :
    (a :: x :: y :: b :: l).Perm (b :: x :: y :: a :: l) := by
  rw [List.perm_iff_count]
  intro v
  simp only [List.count_cons]
  omega

theorem horiz_swap_parity (b : Nat) :
    ∀ l1 l2 : List Nat, invPairs (l1 ++ 9 :: b :: l2) = invPairs (l1 ++ b :: 9 :: l2) := by
  intro l1
  induction l1 with
  | nil =>
    intro l2
    simp only [List.nil_append, invPairs, countInv_nine]
    simp only [countInv, List.countP_cons, decide_eq_true_eq]
    simp only [blank_mid, Nat.add_zero, Nat.zero_add]
    all_goals omega
  | cons z l1 ih =>
    intro l2
    simp only [List.cons_append, invPairs, List.append_eq]
    have hperm : (l1 ++ 9 :: b :: l2).Perm (l1 ++ b :: 9 :: l2) :=
      List.Perm.append_left l1 (List.Perm.swap b 9 l2)
    have hc : countInv z (l1 ++ 9 :: b :: l2) = countInv z (l1 ++ b :: 9 :: l2) := by
      unfold countInv
      exact hperm.countP_eq _
    rw [hc, ih l2]

theorem vert_swap_parity (x y b : Nat) (hx : x ≠ 9) (hy : y ≠ 9) (hb : b ≠ 9)
    (hbx : b ≠ x) (hby : b ≠ y) :
    ∀ l1 l2 : List Nat,
    invPairs (l1 ++ 9 :: x :: y :: b :: l2) % 2 =
      invPairs (l1 ++ b :: x :: y :: 9 :: l2) % 2 := by
  intro l1
  induction l1 with
  | nil =>
    intro l2
    simp only [List.nil_append, invPairs, countInv_nine]
    simp only [countInv, List.countP_cons, decide_eq_true_eq]
    simp only [blank_left, blank_mid, Nat.add_zero, Nat.zero_add]
    have f1 := flip_sum x b hx hb (fun hh => hbx hh.symm)
    have f2 := flip_sum y b hy hb (fun hh => hby hh.symm)
    omega
  | cons z l1 ih =>
    intro l2
    simp only [List.cons_append, invPairs, List.append_eq]
    have hperm : (l1 ++ 9 :: x :: y :: b :: l2).Perm (l1 ++ b :: x :: y :: 9 :: l2) :=
      List.Perm.append_left l1 (perm_swap4 9 x y b l2)
    have hc : countInv z (l1 ++ 9 :: x :: y :: b :: l2) =
        countInv z (l1 ++ b :: x :: y :: 9 :: l2) := by
      unfold countInv
      exact hperm.countP_eq _
    rw [hc]
    have := ih l2
    omega

set_option maxRecDepth 2000 in
theorem solvable_inversions_eq_invPairs (v0 v1 v2 v3 v4 v5 v6 v7 v8 : Nat) :
    solvable_inversions [v0, v1, v2, v3, v4, v5, v6, v7, v8] =
      invPairs [v0, v1, v2, v3, v4, v5, v6, v7, v8] := by
  rw [solvable_inversions_nine]
  simp only [invPairs, countInv, List.countP_cons, List.countP_nil,
    decide_eq_true_eq]
  omega

set_option maxRecDepth 4000 in
set_option maxHeartbeats 2000000 in
theorem swap_parity (s : Board) (hv : ValidBoard s) (er ec r2 c2 : Nat)
    (her : er < 3) (hec : ec < 3) (hr2 : r2 < 3) (hc2 : c2 < 3)
    (hblank : cellAt s er ec = none)
    (hadj : (r2 = er + 1 ∧ c2 = ec) ∨ (er = r2 + 1 ∧ c2 = ec) ∨
            (c2 = ec + 1 ∧ r2 = er) ∨ (ec = c2 + 1 ∧ r2 = er)) :
    is_problem_solvable (board_values (swap s er ec r2 c2)) =
      is_problem_solvable (board_values s) := by
  obtain ⟨x0, x1, x2, x3, x4, x5, x6, x7, x8, rfl⟩ := wf3_destruct _ hv.1
  have hcount := hv.2.count_eq none
  have hm0 : x0 ∈ goalFlat := hv.2.subset (by simp [flattenCells])
  have hm1 : x1 ∈ goalFlat := hv.2.subset (by simp [flattenCells])
  have hm2 : x2 ∈ goalFlat := hv.2.subset (by simp [flattenCells])
  have hm3 : x3 ∈ goalFlat := hv.2.subset (by simp [flattenCells])
  have hm4 : x4 ∈ goalFlat := hv.2.subset (by simp [flattenCells])
  have hm5 : x5 ∈ goalFlat := hv.2.subset (by simp [flattenCells])
  have hm6 : x6 ∈ goalFlat := hv.2.subset (by simp [flattenCells])
  have hm7 : x7 ∈ goalFlat := hv.2.subset (by simp [flattenCells])
  have hm8 : x8 ∈ goalFlat := hv.2.subset (by simp [flattenCells])
  have hnd : ([tileValue x0, tileValue x1, tileValue x2, tileValue x3,
      tileValue x4, tileValue x5, tileValue x6, tileValue x7, tileValue x8] :
      List Nat).Nodup := (hv.2.map tileValue).symm.nodup (by decide)
  interval_cases er
  · interval_cases ec
    · interval_cases r2
      · interval_cases c2
        · simp at hadj
        · have hb : x0 = none := hblank
          subst hb
          have e1 : board_values (swap [[(none : Cell), x1, x2], [x3, x4, x5], [x6, x7, x8]] 0 0 0 1) =
              [tileValue x1, 9, tileValue x2, tileValue x3, tileValue x4, tileValue x5, tileValue x6, tileValue x7, tileValue x8] := rfl
          have e2 : board_values [[(none : Cell), x1, x2], [x3, x4, x5], [x6, x7, x8]] =
              [9, tileValue x1, tileValue x2, tileValue x3, tileValue x4, tileValue x5, tileValue x6, tileValue x7, tileValue x8] := rfl
          unfold is_problem_solvable
          rw [e1, e2, solvable_inversions_eq_invPairs,
            solvable_inversions_eq_invPairs]
          congr 1
          exact congrArg (fun n => n % 2) (horiz_swap_parity (tileValue x1) [] [tileValue x2, tileValue x3, tileValue x4, tileValue x5, tileValue x6, tileValue x7, tileValue x8]).symm
        · simp at hadj
      · interval_cases c2
        · have hb : x0 = none := hblank
          subst hb
          have hn1 : x1 ≠ none := by
            rintro rfl
            simp [flattenCells, goalFlat, List.count_cons] at hcount
            all_goals omega
          have hn2 : x2 ≠ none := by
            rintro rfl
            simp [flattenCells, goalFlat, List.count_cons] at hcount
            all_goals omega
          have hn3 : x3 ≠ none := by
            rintro rfl
            simp [flattenCells, goalFlat, List.count_cons] at hcount
            all_goals omega
          have ht1 : tileValue x1 ≠ 9 := tv_ne_nine x1 hm1 hn1
          have ht2 : tileValue x2 ≠ 9 := tv_ne_nine x2 hm2 hn2
          have ht3 : tileValue x3 ≠ 9 := tv_ne_nine x3 hm3 hn3
          have hne1 : tileValue x3 ≠ tileValue x1 := by
            intro heq; rw [heq] at hnd; simp at hnd
          have hne2 : tileValue x3 ≠ tileValue x2 := by
            intro heq; rw [heq] at hnd; simp at hnd
          have e1 : board_values (swap [[(none : Cell), x1, x2], [x3, x4, x5], [x6, x7, x8]] 0 0 1 0) =
              [tileValue x3, tileValue x1, tileValue x2, 9, tileValue x4, tileValue x5, tileValue x6, tileValue x7, tileValue x8] := rfl
          have e2 : board_values [[(none : Cell), x1, x2], [x3, x4, x5], [x6, x7, x8]] =
              [9, tileValue x1, tileValue x2, tileValue x3, tileValue x4, tileValue x5, tileValue x6, tileValue x7, tileValue x8] := rfl
          unfold is_problem_solvable
          rw [e1, e2, solvable_inversions_eq_invPairs,
            solvable_inversions_eq_invPairs]
          congr 1
          exact (vert_swap_parity (tileValue x1) (tileValue x2) (tileValue x3) ht1 ht2 ht3 hne1 hne2 [] [tileValue x4, tileValue x5, tileValue x6, tileValue x7, tileValue x8]).symm
        · simp at hadj
        · simp at hadj
      · interval_cases c2
        · simp at hadj
        · simp at hadj
        · simp at hadj
    · interval_cases r2
      · interval_cases c2
        · have hb : x1 = none := hblank
          subst hb
          have e1 : board_values (swap [[x0, (none : Cell), x2], [x3, x4, x5], [x6, x7, x8]] 0 1 0 0) =
              [9, tileValue x0, tileValue x2, tileValue x3, tileValue x4, tileValue x5, tileValue x6, tileValue x7, tileValue x8] := rfl
          have e2 : board_values [[x0, (none : Cell), x2], [x3, x4, x5], [x6, x7, x8]] =
              [tileValue x0, 9, tileValue x2, tileValue x3, tileValue x4, tileValue x5, tileValue x6, tileValue x7, tileValue x8] := rfl
          unfold is_problem_solvable
          rw [e1, e2, solvable_inversions_eq_invPairs,
            solvable_inversions_eq_invPairs]
          congr 1
          exact congrArg (fun n => n % 2) (horiz_swap_parity (tileValue x0) [] [tileValue x2, tileValue x3, tileValue x4, tileValue x5, tileValue x6, tileValue x7, tileValue x8])
        · simp at hadj
        · have hb : x1 = none := hblank
          subst hb
          have e1 : board_values (swap [[x0, (none : Cell), x2], [x3, x4, x5], [x6, x7, x8]] 0 1 0 2) =
              [tileValue x0, tileValue x2, 9, tileValue x3, tileValue x4, tileValue x5, tileValue x6, tileValue x7, tileValue x8] := rfl
          have e2 : board_values [[x0, (none : Cell), x2], [x3, x4, x5], [x6, x7, x8]] =
              [tileValue x0, 9, tileValue x2, tileValue x3, tileValue x4, tileValue x5, tileValue x6, tileValue x7, tileValue x8] := rfl
          unfold is_problem_solvable
          rw [e1, e2, solvable_inversions_eq_invPairs,
            solvable_inversions_eq_invPairs]
          congr 1
          exact congrArg (fun n => n % 2) (horiz_swap_parity (tileValue x2) [tileValue x0] [tileValue x3, tileValue x4, tileValue x5, tileValue x6, tileValue x7, tileValue x8]).symm
      · interval_cases c2
        · simp at hadj
        · have hb : x1 = none := hblank
          subst hb
          have hn2 : x2 ≠ none := by
            rintro rfl
            simp [flattenCells, goalFlat, List.count_cons] at hcount
            all_goals omega
          have hn3 : x3 ≠ none := by
            rintro rfl
            simp [flattenCells, goalFlat, List.count_cons] at hcount
            all_goals omega
          have hn4 : x4 ≠ none := by
            rintro rfl
            simp [flattenCells, goalFlat, List.count_cons] at hcount
            all_goals omega
          have ht2 : tileValue x2 ≠ 9 := tv_ne_nine x2 hm2 hn2
          have ht3 : tileValue x3 ≠ 9 := tv_ne_nine x3 hm3 hn3
          have ht4 : tileValue x4 ≠ 9 := tv_ne_nine x4 hm4 hn4
          have hne2 : tileValue x4 ≠ tileValue x2 := by
            intro heq; rw [heq] at hnd; simp at hnd
          have hne3 : tileValue x4 ≠ tileValue x3 := by
            intro heq; rw [heq] at hnd; simp at hnd
          have e1 : board_values (swap [[x0, (none : Cell), x2], [x3, x4, x5], [x6, x7, x8]] 0 1 1 1) =
              [tileValue x0, tileValue x4, tileValue x2, tileValue x3, 9, tileValue x5, tileValue x6, tileValue x7, tileValue x8] := rfl
          have e2 : board_values [[x0, (none : Cell), x2], [x3, x4, x5], [x6, x7, x8]] =
              [tileValue x0, 9, tileValue x2, tileValue x3, tileValue x4, tileValue x5, tileValue x6, tileValue x7, tileValue x8] := rfl
          unfold is_problem_solvable
          rw [e1, e2, solvable_inversions_eq_invPairs,
            solvable_inversions_eq_invPairs]
          congr 1
          exact (vert_swap_parity (tileValue x2) (tileValue x3) (tileValue x4) ht2 ht3 ht4 hne2 hne3 [tileValue x0] [tileValue x5, tileValue x6, tileValue x7, tileValue x8]).symm
        · simp at hadj
      · interval_cases c2
        · simp at hadj
        · simp at hadj
        · simp at hadj
    · interval_cases r2
      · interval_cases c2
        · simp at hadj
        · have hb : x2 = none := hblank
          subst hb
          have e1 : board_values (swap [[x0, x1, (none : Cell)], [x3, x4, x5], [x6, x7, x8]] 0 2 0 1) =
              [tileValue x0, 9, tileValue x1, tileValue x3, tileValue x4, tileValue x5, tileValue x6, tileValue x7, tileValue x8] := rfl
          have e2 : board_values [[x0, x1, (none : Cell)], [x3, x4, x5], [x6, x7, x8]] =
              [tileValue x0, tileValue x1, 9, tileValue x3, tileValue x4, tileValue x5, tileValue x6, tileValue x7, tileValue x8] := rfl
          unfold is_problem_solvable
          rw [e1, e2, solvable_inversions_eq_invPairs,
            solvable_inversions_eq_invPairs]
          congr 1
          exact congrArg (fun n => n % 2) (horiz_swap_parity (tileValue x1) [tileValue x0] [tileValue x3, tileValue x4, tileValue x5, tileValue x6, tileValue x7, tileValue x8])
        · simp at hadj
      · interval_cases c2
        · simp at hadj
        · simp at hadj
        · have hb : x2 = none := hblank
          subst hb
          have hn3 : x3 ≠ none := by
            rintro rfl
            simp [flattenCells, goalFlat, List.count_cons] at hcount
            all_goals omega
          have hn4 : x4 ≠ none := by
            rintro rfl
            simp [flattenCells, goalFlat, List.count_cons] at hcount
            all_goals omega
          have hn5 : x5 ≠ none := by
            rintro rfl
            simp [flattenCells, goalFlat, List.count_cons] at hcount
            all_goals omega
          have ht3 : tileValue x3 ≠ 9 := tv_ne_nine x3 hm3 hn3
          have ht4 : tileValue x4 ≠ 9 := tv_ne_nine x4 hm4 hn4
          have ht5 : tileValue x5 ≠ 9 := tv_ne_nine x5 hm5 hn5
          have hne3 : tileValue x5 ≠ tileValue x3 := by
            intro heq; rw [heq] at hnd; simp at hnd
          have hne4 : tileValue x5 ≠ tileValue x4 := by
            intro heq; rw [heq] at hnd; simp at hnd
          have e1 : board_values (swap [[x0, x1, (none : Cell)], [x3, x4, x5], [x6, x7, x8]] 0 2 1 2) =
              [tileValue x0, tileValue x1, tileValue x5, tileValue x3, tileValue x4, 9, tileValue x6, tileValue x7, tileValue x8] := rfl
          have e2 : board_values [[x0, x1, (none : Cell)], [x3, x4, x5], [x6, x7, x8]] =
              [tileValue x0, tileValue x1, 9, tileValue x3, tileValue x4, tileValue x5, tileValue x6, tileValue x7, tileValue x8] := rfl
          unfold is_problem_solvable
          rw [e1, e2, solvable_inversions_eq_invPairs,
            solvable_inversions_eq_invPairs]
          congr 1
          exact (vert_swap_parity (tileValue x3) (tileValue x4) (tileValue x5) ht3 ht4 ht5 hne3 hne4 [tileValue x0, tileValue x1] [tileValue x6, tileValue x7, tileValue x8]).symm
      · interval_cases c2
        · simp at hadj
        · simp at hadj
        · simp at hadj
  · interval_cases ec
    · interval_cases r2
      · interval_cases c2
        · have hb : x3 = none := hblank
          subst hb
          have hn1 : x1 ≠ none := by
            rintro rfl
            simp [flattenCells, goalFlat, List.count_cons] at hcount
            all_goals omega
          have hn2 : x2 ≠ none := by
            rintro rfl
            simp [flattenCells, goalFlat, List.count_cons] at hcount
            all_goals omega
          have hn0 : x0 ≠ none := by
            rintro rfl
            simp [flattenCells, goalFlat, List.count_cons] at hcount
            all_goals omega
          have ht1 : tileValue x1 ≠ 9 := tv_ne_nine x1 hm1 hn1
          have ht2 : tileValue x2 ≠ 9 := tv_ne_nine x2 hm2 hn2
          have ht0 : tileValue x0 ≠ 9 := tv_ne_nine x0 hm0 hn0
          have hne1 : tileValue x0 ≠ tileValue x1 := by
            intro heq; rw [heq] at hnd; simp at hnd
          have hne2 : tileValue x0 ≠ tileValue x2 := by
            intro heq; rw [heq] at hnd; simp at hnd
          have e1 : board_values (swap [[x0, x1, x2], [(none : Cell), x4, x5], [x6, x7, x8]] 1 0 0 0) =
              [9, tileValue x1, tileValue x2, tileValue x0, tileValue x4, tileValue x5, tileValue x6, tileValue x7, tileValue x8] := rfl
          have e2 : board_values [[x0, x1, x2], [(none : Cell), x4, x5], [x6, x7, x8]] =
              [tileValue x0, tileValue x1, tileValue x2, 9, tileValue x4, tileValue x5, tileValue x6, tileValue x7, tileValue x8] := rfl
          unfold is_problem_solvable
          rw [e1, e2, solvable_inversions_eq_invPairs,
            solvable_inversions_eq_invPairs]
          congr 1
          exact vert_swap_parity (tileValue x1) (tileValue x2) (tileValue x0) ht1 ht2 ht0 hne1 hne2 [] [tileValue x4, tileValue x5, tileValue x6, tileValue x7, tileValue x8]
        · simp at hadj
        · simp at hadj
      · interval_cases c2
        · simp at hadj
        · have hb : x3 = none := hblank
          subst hb
          have e1 : board_values (swap [[x0, x1, x2], [(none : Cell), x4, x5], [x6, x7, x8]] 1 0 1 1) =
              [tileValue x0, tileValue x1, tileValue x2, tileValue x4, 9, tileValue x5, tileValue x6, tileValue x7, tileValue x8] := rfl
          have e2 : board_values [[x0, x1, x2], [(none : Cell), x4, x5], [x6, x7, x8]] =
              [tileValue x0, tileValue x1, tileValue x2, 9, tileValue x4, tileValue x5, tileValue x6, tileValue x7, tileValue x8] := rfl
          unfold is_problem_solvable
          rw [e1, e2, solvable_inversions_eq_invPairs,
            solvable_inversions_eq_invPairs]
          congr 1
          exact congrArg (fun n => n % 2) (horiz_swap_parity (tileValue x4) [tileValue x0, tileValue x1, tileValue x2] [tileValue x5, tileValue x6, tileValue x7, tileValue x8]).symm
        · simp at hadj
      · interval_cases c2
        · have hb : x3 = none := hblank
          subst hb
          have hn4 : x4 ≠ none := by
            rintro rfl
            simp [flattenCells, goalFlat, List.count_cons] at hcount
            all_goals omega
          have hn5 : x5 ≠ none := by
            rintro rfl
            simp [flattenCells, goalFlat, List.count_cons] at hcount
            all_goals omega
          have hn6 : x6 ≠ none := by
            rintro rfl
            simp [flattenCells, goalFlat, List.count_cons] at hcount
            all_goals omega
          have ht4 : tileValue x4 ≠ 9 := tv_ne_nine x4 hm4 hn4
          have ht5 : tileValue x5 ≠ 9 := tv_ne_nine x5 hm5 hn5
          have ht6 : tileValue x6 ≠ 9 := tv_ne_nine x6 hm6 hn6
          have hne4 : tileValue x6 ≠ tileValue x4 := by
            intro heq; rw [heq] at hnd; simp at hnd
          have hne5 : tileValue x6 ≠ tileValue x5 := by
            intro heq; rw [heq] at hnd; simp at hnd
          have e1 : board_values (swap [[x0, x1, x2], [(none : Cell), x4, x5], [x6, x7, x8]] 1 0 2 0) =
              [tileValue x0, tileValue x1, tileValue x2, tileValue x6, tileValue x4, tileValue x5, 9, tileValue x7, tileValue x8] := rfl
          have e2 : board_values [[x0, x1, x2], [(none : Cell), x4, x5], [x6, x7, x8]] =
              [tileValue x0, tileValue x1, tileValue x2, 9, tileValue x4, tileValue x5, tileValue x6, tileValue x7, tileValue x8] := rfl
          unfold is_problem_solvable
          rw [e1, e2, solvable_inversions_eq_invPairs,
            solvable_inversions_eq_invPairs]
          congr 1
          exact (vert_swap_parity (tileValue x4) (tileValue x5) (tileValue x6) ht4 ht5 ht6 hne4 hne5 [tileValue x0, tileValue x1, tileValue x2] [tileValue x7, tileValue x8]).symm
        · simp at hadj
        · simp at hadj
    · interval_cases r2
      · interval_cases c2
        · simp at hadj
        · have hb : x4 = none := hblank
          subst hb
          have hn2 : x2 ≠ none := by
            rintro rfl
            simp [flattenCells, goalFlat, List.count_cons] at hcount
            all_goals omega
          have hn3 : x3 ≠ none := by
            rintro rfl
            simp [flattenCells, goalFlat, List.count_cons] at hcount
            all_goals omega
          have hn1 : x1 ≠ none := by
            rintro rfl
            simp [flattenCells, goalFlat, List.count_cons] at hcount
            all_goals omega
          have ht2 : tileValue x2 ≠ 9 := tv_ne_nine x2 hm2 hn2
          have ht3 : tileValue x3 ≠ 9 := tv_ne_nine x3 hm3 hn3
          have ht1 : tileValue x1 ≠ 9 := tv_ne_nine x1 hm1 hn1
          have hne2 : tileValue x1 ≠ tileValue x2 := by
            intro heq; rw [heq] at hnd; simp at hnd
          have hne3 : tileValue x1 ≠ tileValue x3 := by
            intro heq; rw [heq] at hnd; simp at hnd
          have e1 : board_values (swap [[x0, x1, x2], [x3, (none : Cell), x5], [x6, x7, x8]] 1 1 0 1) =
              [tileValue x0, 9, tileValue x2, tileValue x3, tileValue x1, tileValue x5, tileValue x6, tileValue x7, tileValue x8] := rfl
          have e2 : board_values [[x0, x1, x2], [x3, (none : Cell), x5], [x6, x7, x8]] =
              [tileValue x0, tileValue x1, tileValue x2, tileValue x3, 9, tileValue x5, tileValue x6, tileValue x7, tileValue x8] := rfl
          unfold is_problem_solvable
          rw [e1, e2, solvable_inversions_eq_invPairs,
            solvable_inversions_eq_invPairs]
          congr 1
          exact vert_swap_parity (tileValue x2) (tileValue x3) (tileValue x1) ht2 ht3 ht1 hne2 hne3 [tileValue x0] [tileValue x5, tileValue x6, tileValue x7, tileValue x8]
        · simp at hadj
      · interval_cases c2
        · have hb : x4 = none := hblank
          subst hb
          have e1 : board_values (swap [[x0, x1, x2], [x3, (none : Cell), x5], [x6, x7, x8]] 1 1 1 0) =
              [tileValue x0, tileValue x1, tileValue x2, 9, tileValue x3, tileValue x5, tileValue x6, tileValue x7, tileValue x8] := rfl
          have e2 : board_values [[x0, x1, x2], [x3, (none : Cell), x5], [x6, x7, x8]] =
              [tileValue x0, tileValue x1, tileValue x2, tileValue x3, 9, tileValue x5, tileValue x6, tileValue x7, tileValue x8] := rfl
          unfold is_problem_solvable
          rw [e1, e2, solvable_inversions_eq_invPairs,
            solvable_inversions_eq_invPairs]
          congr 1
          exact congrArg (fun n => n % 2) (horiz_swap_parity (tileValue x3) [tileValue x0, tileValue x1, tileValue x2] [tileValue x5, tileValue x6, tileValue x7, tileValue x8])
        · simp at hadj
        · have hb : x4 = none := hblank
          subst hb
          have e1 : board_values (swap [[x0, x1, x2], [x3, (none : Cell), x5], [x6, x7, x8]] 1 1 1 2) =
              [tileValue x0, tileValue x1, tileValue x2, tileValue x3, tileValue x5, 9, tileValue x6, tileValue x7, tileValue x8] := rfl
          have e2 : board_values [[x0, x1, x2], [x3, (none : Cell), x5], [x6, x7, x8]] =
              [tileValue x0, tileValue x1, tileValue x2, tileValue x3, 9, tileValue x5, tileValue x6, tileValue x7, tileValue x8] := rfl
          unfold is_problem_solvable
          rw [e1, e2, solvable_inversions_eq_invPairs,
            solvable_inversions_eq_invPairs]
          congr 1
          exact congrArg (fun n => n % 2) (horiz_swap_parity (tileValue x5) [tileValue x0, tileValue x1, tileValue x2, tileValue x3] [tileValue x6, tileValue x7, tileValue x8]).symm
      · interval_cases c2
        · simp at hadj
        · have hb : x4 = none := hblank
          subst hb
          have hn5 : x5 ≠ none := by
            rintro rfl
            simp [flattenCells, goalFlat, List.count_cons] at hcount
            all_goals omega
          have hn6 : x6 ≠ none := by
            rintro rfl
            simp [flattenCells, goalFlat, List.count_cons] at hcount
            all_goals omega
          have hn7 : x7 ≠ none := by
            rintro rfl
            simp [flattenCells, goalFlat, List.count_cons] at hcount
            all_goals omega
          have ht5 : tileValue x5 ≠ 9 := tv_ne_nine x5 hm5 hn5
          have ht6 : tileValue x6 ≠ 9 := tv_ne_nine x6 hm6 hn6
          have ht7 : tileValue x7 ≠ 9 := tv_ne_nine x7 hm7 hn7
          have hne5 : tileValue x7 ≠ tileValue x5 := by
            intro heq; rw [heq] at hnd; simp at hnd
          have hne6 : tileValue x7 ≠ tileValue x6 := by
            intro heq; rw [heq] at hnd; simp at hnd
          have e1 : board_values (swap [[x0, x1, x2], [x3, (none : Cell), x5], [x6, x7, x8]] 1 1 2 1) =
              [tileValue x0, tileValue x1, tileValue x2, tileValue x3, tileValue x7, tileValue x5, tileValue x6, 9, tileValue x8] := rfl
          have e2 : board_values [[x0, x1, x2], [x3, (none : Cell), x5], [x6, x7, x8]] =
              [tileValue x0, tileValue x1, tileValue x2, tileValue x3, 9, tileValue x5, tileValue x6, tileValue x7, tileValue x8] := rfl
          unfold is_problem_solvable
          rw [e1, e2, solvable_inversions_eq_invPairs,
            solvable_inversions_eq_invPairs]
          congr 1
          exact (vert_swap_parity (tileValue x5) (tileValue x6) (tileValue x7) ht5 ht6 ht7 hne5 hne6 [tileValue x0, tileValue x1, tileValue x2, tileValue x3] [tileValue x8]).symm
        · simp at hadj
    · interval_cases r2
      · interval_cases c2
        · simp at hadj
        · simp at hadj
        · have hb : x5 = none := hblank
          subst hb
          have hn3 : x3 ≠ none := by
            rintro rfl
            simp [flattenCells, goalFlat, List.count_cons] at hcount
            all_goals omega
          have hn4 : x4 ≠ none := by
            rintro rfl
            simp [flattenCells, goalFlat, List.count_cons] at hcount
            all_goals omega
          have hn2 : x2 ≠ none := by
            rintro rfl
            simp [flattenCells, goalFlat, List.count_cons] at hcount
            all_goals omega
          have ht3 : tileValue x3 ≠ 9 := tv_ne_nine x3 hm3 hn3
          have ht4 : tileValue x4 ≠ 9 := tv_ne_nine x4 hm4 hn4
          have ht2 : tileValue x2 ≠ 9 := tv_ne_nine x2 hm2 hn2
          have hne3 : tileValue x2 ≠ tileValue x3 := by
            intro heq; rw [heq] at hnd; simp at hnd
          have hne4 : tileValue x2 ≠ tileValue x4 := by
            intro heq; rw [heq] at hnd; simp at hnd
          have e1 : board_values (swap [[x0, x1, x2], [x3, x4, (none : Cell)], [x6, x7, x8]] 1 2 0 2) =
              [tileValue x0, tileValue x1, 9, tileValue x3, tileValue x4, tileValue x2, tileValue x6, tileValue x7, tileValue x8] := rfl
          have e2 : board_values [[x0, x1, x2], [x3, x4, (none : Cell)], [x6, x7, x8]] =
              [tileValue x0, tileValue x1, tileValue x2, tileValue x3, tileValue x4, 9, tileValue x6, tileValue x7, tileValue x8] := rfl
          unfold is_problem_solvable
          rw [e1, e2, solvable_inversions_eq_invPairs,
            solvable_inversions_eq_invPairs]
          congr 1
          exact vert_swap_parity (tileValue x3) (tileValue x4) (tileValue x2) ht3 ht4 ht2 hne3 hne4 [tileValue x0, tileValue x1] [tileValue x6, tileValue x7, tileValue x8]
      · interval_cases c2
        · simp at hadj
        · have hb : x5 = none := hblank
          subst hb
          have e1 : board_values (swap [[x0, x1, x2], [x3, x4, (none : Cell)], [x6, x7, x8]] 1 2 1 1) =
              [tileValue x0, tileValue x1, tileValue x2, tileValue x3, 9, tileValue x4, tileValue x6, tileValue x7, tileValue x8] := rfl
          have e2 : board_values [[x0, x1, x2], [x3, x4, (none : Cell)], [x6, x7, x8]] =
              [tileValue x0, tileValue x1, tileValue x2, tileValue x3, tileValue x4, 9, tileValue x6, tileValue x7, tileValue x8] := rfl
          unfold is_problem_solvable
          rw [e1, e2, solvable_inversions_eq_invPairs,
            solvable_inversions_eq_invPairs]
          congr 1
          exact congrArg (fun n => n % 2) (horiz_swap_parity (tileValue x4) [tileValue x0, tileValue x1, tileValue x2, tileValue x3] [tileValue x6, tileValue x7, tileValue x8])
        · simp at hadj
      · interval_cases c2
        · simp at hadj
        · simp at hadj
        · have hb : x5 = none := hblank
          subst hb
          have hn6 : x6 ≠ none := by
            rintro rfl
            simp [flattenCells, goalFlat, List.count_cons] at hcount
            all_goals omega
          have hn7 : x7 ≠ none := by
            rintro rfl
            simp [flattenCells, goalFlat, List.count_cons] at hcount
            all_goals omega
          have hn8 : x8 ≠ none := by
            rintro rfl
            simp [flattenCells, goalFlat, List.count_cons] at hcount
            all_goals omega
          have ht6 : tileValue x6 ≠ 9 := tv_ne_nine x6 hm6 hn6
          have ht7 : tileValue x7 ≠ 9 := tv_ne_nine x7 hm7 hn7
          have ht8 : tileValue x8 ≠ 9 := tv_ne_nine x8 hm8 hn8
          have hne6 : tileValue x8 ≠ tileValue x6 := by
            intro heq; rw [heq] at hnd; simp at hnd
          have hne7 : tileValue x8 ≠ tileValue x7 := by
            intro heq; rw [heq] at hnd; simp at hnd
          have e1 : board_values (swap [[x0, x1, x2], [x3, x4, (none : Cell)], [x6, x7, x8]] 1 2 2 2) =
              [tileValue x0, tileValue x1, tileValue x2, tileValue x3, tileValue x4, tileValue x8, tileValue x6, tileValue x7, 9] := rfl
          have e2 : board_values [[x0, x1, x2], [x3, x4, (none : Cell)], [x6, x7, x8]] =
              [tileValue x0, tileValue x1, tileValue x2, tileValue x3, tileValue x4, 9, tileValue x6, tileValue x7, tileValue x8] := rfl
          unfold is_problem_solvable
          rw [e1, e2, solvable_inversions_eq_invPairs,
            solvable_inversions_eq_invPairs]
          congr 1
          exact (vert_swap_parity (tileValue x6) (tileValue x7) (tileValue x8) ht6 ht7 ht8 hne6 hne7 [tileValue x0, tileValue x1, tileValue x2, tileValue x3, tileValue x4] []).symm
  · interval_cases ec
    · interval_cases r2
      · interval_cases c2
        · simp at hadj
        · simp at hadj
        · simp at hadj
      · interval_cases c2
        · have hb : x6 = none := hblank
          subst hb
          have hn4 : x4 ≠ none := by
            rintro rfl
            simp [flattenCells, goalFlat, List.count_cons] at hcount
            all_goals omega
          have hn5 : x5 ≠ none := by
            rintro rfl
            simp [flattenCells, goalFlat, List.count_cons] at hcount
            all_goals omega
          have hn3 : x3 ≠ none := by
            rintro rfl
            simp [flattenCells, goalFlat, List.count_cons] at hcount
            all_goals omega
          have ht4 : tileValue x4 ≠ 9 := tv_ne_nine x4 hm4 hn4
          have ht5 : tileValue x5 ≠ 9 := tv_ne_nine x5 hm5 hn5
          have ht3 : tileValue x3 ≠ 9 := tv_ne_nine x3 hm3 hn3
          have hne4 : tileValue x3 ≠ tileValue x4 := by
            intro heq; rw [heq] at hnd; simp at hnd
          have hne5 : tileValue x3 ≠ tileValue x5 := by
            intro heq; rw [heq] at hnd; simp at hnd
          have e1 : board_values (swap [[x0, x1, x2], [x3, x4, x5], [(none : Cell), x7, x8]] 2 0 1 0) =
              [tileValue x0, tileValue x1, tileValue x2, 9, tileValue x4, tileValue x5, tileValue x3, tileValue x7, tileValue x8] := rfl
          have e2 : board_values [[x0, x1, x2], [x3, x4, x5], [(none : Cell), x7, x8]] =
              [tileValue x0, tileValue x1, tileValue x2, tileValue x3, tileValue x4, tileValue x5, 9, tileValue x7, tileValue x8] := rfl
          unfold is_problem_solvable
          rw [e1, e2, solvable_inversions_eq_invPairs,
            solvable_inversions_eq_invPairs]
          congr 1
          exact vert_swap_parity (tileValue x4) (tileValue x5) (tileValue x3) ht4 ht5 ht3 hne4 hne5 [tileValue x0, tileValue x1, tileValue x2] [tileValue x7, tileValue x8]
        · simp at hadj
        · simp at hadj
      · interval_cases c2
        · simp at hadj
        · have hb : x6 = none := hblank
          subst hb
          have e1 : board_values (swap [[x0, x1, x2], [x3, x4, x5], [(none : Cell), x7, x8]] 2 0 2 1) =
              [tileValue x0, tileValue x1, tileValue x2, tileValue x3, tileValue x4, tileValue x5, tileValue x7, 9, tileValue x8] := rfl
          have e2 : board_values [[x0, x1, x2], [x3, x4, x5], [(none : Cell), x7, x8]] =
              [tileValue x0, tileValue x1, tileValue x2, tileValue x3, tileValue x4, tileValue x5, 9, tileValue x7, tileValue x8] := rfl
          unfold is_problem_solvable
          rw [e1, e2, solvable_inversions_eq_invPairs,
            solvable_inversions_eq_invPairs]
          congr 1
          exact congrArg (fun n => n % 2) (horiz_swap_parity (tileValue x7) [tileValue x0, tileValue x1, tileValue x2, tileValue x3, tileValue x4, tileValue x5] [tileValue x8]).symm
        · simp at hadj
    · interval_cases r2
      · interval_cases c2
        · simp at hadj
        · simp at hadj
        · simp at hadj
      · interval_cases c2
        · simp at hadj
        · have hb : x7 = none := hblank
          subst hb
          have hn5 : x5 ≠ none := by
            rintro rfl
            simp [flattenCells, goalFlat, List.count_cons] at hcount
            all_goals omega
          have hn6 : x6 ≠ none := by
            rintro rfl
            simp [flattenCells, goalFlat, List.count_cons] at hcount
            all_goals omega
          have hn4 : x4 ≠ none := by
            rintro rfl
            simp [flattenCells, goalFlat, List.count_cons] at hcount
            all_goals omega
          have ht5 : tileValue x5 ≠ 9 := tv_ne_nine x5 hm5 hn5
          have ht6 : tileValue x6 ≠ 9 := tv_ne_nine x6 hm6 hn6
          have ht4 : tileValue x4 ≠ 9 := tv_ne_nine x4 hm4 hn4
          have hne5 : tileValue x4 ≠ tileValue x5 := by
            intro heq; rw [heq] at hnd; simp at hnd
          have hne6 : tileValue x4 ≠ tileValue x6 := by
            intro heq; rw [heq] at hnd; simp at hnd
          have e1 : board_values (swap [[x0, x1, x2], [x3, x4, x5], [x6, (none : Cell), x8]] 2 1 1 1) =
              [tileValue x0, tileValue x1, tileValue x2, tileValue x3, 9, tileValue x5, tileValue x6, tileValue x4, tileValue x8] := rfl
          have e2 : board_values [[x0, x1, x2], [x3, x4, x5], [x6, (none : Cell), x8]] =
              [tileValue x0, tileValue x1, tileValue x2, tileValue x3, tileValue x4, tileValue x5, tileValue x6, 9, tileValue x8] := rfl
          unfold is_problem_solvable
          rw [e1, e2, solvable_inversions_eq_invPairs,
            solvable_inversions_eq_invPairs]
          congr 1
          exact vert_swap_parity (tileValue x5) (tileValue x6) (tileValue x4) ht5 ht6 ht4 hne5 hne6 [tileValue x0, tileValue x1, tileValue x2, tileValue x3] [tileValue x8]
        · simp at hadj
      · interval_cases c2
        · have hb : x7 = none := hblank
          subst hb
          have e1 : board_values (swap [[x0, x1, x2], [x3, x4, x5], [x6, (none : Cell), x8]] 2 1 2 0) =
              [tileValue x0, tileValue x1, tileValue x2, tileValue x3, tileValue x4, tileValue x5, 9, tileValue x6, tileValue x8] := rfl
          have e2 : board_values [[x0, x1, x2], [x3, x4, x5], [x6, (none : Cell), x8]] =
              [tileValue x0, tileValue x1, tileValue x2, tileValue x3, tileValue x4, tileValue x5, tileValue x6, 9, tileValue x8] := rfl
          unfold is_problem_solvable
          rw [e1, e2, solvable_inversions_eq_invPairs,
            solvable_inversions_eq_invPairs]
          congr 1
          exact congrArg (fun n => n % 2) (horiz_swap_parity (tileValue x6) [tileValue x0, tileValue x1, tileValue x2, tileValue x3, tileValue x4, tileValue x5] [tileValue x8])
        · simp at hadj
        · have hb : x7 = none := hblank
          subst hb
          have e1 : board_values (swap [[x0, x1, x2], [x3, x4, x5], [x6, (none : Cell), x8]] 2 1 2 2) =
              [tileValue x0, tileValue x1, tileValue x2, tileValue x3, tileValue x4, tileValue x5, tileValue x6, tileValue x8, 9] := rfl
          have e2 : board_values [[x0, x1, x2], [x3, x4, x5], [x6, (none : Cell), x8]] =
              [tileValue x0, tileValue x1, tileValue x2, tileValue x3, tileValue x4, tileValue x5, tileValue x6, 9, tileValue x8] := rfl
          unfold is_problem_solvable
          rw [e1, e2, solvable_inversions_eq_invPairs,
            solvable_inversions_eq_invPairs]
          congr 1
          exact congrArg (fun n => n % 2) (horiz_swap_parity (tileValue x8) [tileValue x0, tileValue x1, tileValue x2, tileValue x3, tileValue x4, tileValue x5, tileValue x6] []).symm
    · interval_cases r2
      · interval_cases c2
        · simp at hadj
        · simp at hadj
        · simp at hadj
      · interval_cases c2
        · simp at hadj
        · simp at hadj
        · have hb : x8 = none := hblank
          subst hb
          have hn6 : x6 ≠ none := by
            rintro rfl
            simp [flattenCells, goalFlat, List.count_cons] at hcount
            all_goals omega
          have hn7 : x7 ≠ none := by
            rintro rfl
            simp [flattenCells, goalFlat, List.count_cons] at hcount
            all_goals omega
          have hn5 : x5 ≠ none := by
            rintro rfl
            simp [flattenCells, goalFlat, List.count_cons] at hcount
            all_goals omega
          have ht6 : tileValue x6 ≠ 9 := tv_ne_nine x6 hm6 hn6
          have ht7 : tileValue x7 ≠ 9 := tv_ne_nine x7 hm7 hn7
          have ht5 : tileValue x5 ≠ 9 := tv_ne_nine x5 hm5 hn5
          have hne6 : tileValue x5 ≠ tileValue x6 := by
            intro heq; rw [heq] at hnd; simp at hnd
          have hne7 : tileValue x5 ≠ tileValue x7 := by
            intro heq; rw [heq] at hnd; simp at hnd
          have e1 : board_values (swap [[x0, x1, x2], [x3, x4, x5], [x6, x7, (none : Cell)]] 2 2 1 2) =
              [tileValue x0, tileValue x1, tileValue x2, tileValue x3, tileValue x4, 9, tileValue x6, tileValue x7, tileValue x5] := rfl
          have e2 : board_values [[x0, x1, x2], [x3, x4, x5], [x6, x7, (none : Cell)]] =
              [tileValue x0, tileValue x1, tileValue x2, tileValue x3, tileValue x4, tileValue x5, tileValue x6, tileValue x7, 9] := rfl
          unfold is_problem_solvable
          rw [e1, e2, solvable_inversions_eq_invPairs,
            solvable_inversions_eq_invPairs]
          congr 1
          exact vert_swap_parity (tileValue x6) (tileValue x7) (tileValue x5) ht6 ht7 ht5 hne6 hne7 [tileValue x0, tileValue x1, tileValue x2, tileValue x3, tileValue x4] []
      · interval_cases c2
        · simp at hadj
        · have hb : x8 = none := hblank
          subst hb
          have e1 : board_values (swap [[x0, x1, x2], [x3, x4, x5], [x6, x7, (none : Cell)]] 2 2 2 1) =
              [tileValue x0, tileValue x1, tileValue x2, tileValue x3, tileValue x4, tileValue x5, tileValue x6, 9, tileValue x7] := rfl
          have e2 : board_values [[x0, x1, x2], [x3, x4, x5], [x6, x7, (none : Cell)]] =
              [tileValue x0, tileValue x1, tileValue x2, tileValue x3, tileValue x4, tileValue x5, tileValue x6, tileValue x7, 9] := rfl
          unfold is_problem_solvable
          rw [e1, e2, solvable_inversions_eq_invPairs,
            solvable_inversions_eq_invPairs]
          congr 1
          exact congrArg (fun n => n % 2) (horiz_swap_parity (tileValue x7) [tileValue x0, tileValue x1, tileValue x2, tileValue x3, tileValue x4, tileValue x5, tileValue x6] [])
        · simp at hadj

theorem getD_cons_perm {α : Type} [DecidableEq α] :
    ∀ (xs : List α) (k : Nat) (x d : α), k < xs.length →
    (xs.getD k d :: xs.set k x).Perm (x :: xs) := by
  intro xs
  induction xs with
  | nil => intro k x d hk; simp at hk
  | cons y ys ih =>
    intro k x d hk
    cases k with
    | zero =>
      simp only [List.getD_cons_zero, List.set]
      exact List.Perm.swap x y ys
    | succ n =>
      simp only [List.getD_cons_succ, List.set]
      exact (List.Perm.swap y (ys.getD n d) (ys.set n x)).trans
        (((ih n x d (by simpa using hk)).cons y).trans (List.Perm.swap x y ys))

theorem set_set_perm {α : Type} [DecidableEq α] :
    ∀ (l : List α) (i j : Nat) (d : α), i < l.length → j < l.length →
    ((l.set i (l.getD j d)).set j (l.getD i d)).Perm l := by
  intro l
  induction l with
  | nil => intro i j d hi; simp at hi
  | cons x xs ih =>
    intro i j d hi hj
    cases i with
    | zero =>
      cases j with
      | zero =>
        simp only [List.getD_cons_zero, List.set]
        exact List.Perm.refl _
      | succ m =>
        simp only [List.getD_cons_zero, List.getD_cons_succ, List.set]
        exact getD_cons_perm xs m x d (by simpa using hj)
    | succ n =>
      cases j with
      | zero =>
        simp only [List.getD_cons_zero, List.getD_cons_succ, List.set]
        exact getD_cons_perm xs n x d (by simpa using hi)
      | succ m =>
        simp only [List.getD_cons_succ, List.set]
        exact (ih n m d (by simpa using hi) (by simpa using hj)).cons x

theorem flatten_length (s : Board) (hs : Wf3 s) : (flattenCells s).length = 9 := by
  obtain ⟨a, b, c, d, e, f, g, h, i, rfl⟩ := wf3_destruct _ hs
  rfl

theorem flatten_setCell (s : Board) (hs : Wf3 s) (r c : Nat) (hr : r < 3) (hc : c < 3)
    (v : Cell) : flattenCells (setCell s r c v) = (flattenCells s).set (3 * r + c) v := by
  obtain ⟨a, b, c0, d, e, f, g, h, i, rfl⟩ := wf3_destruct _ hs
  interval_cases r <;> interval_cases c <;> rfl

theorem cellAt_flatten (s : Board) (hs : Wf3 s) (r c : Nat) (hr : r < 3) (hc : c < 3) :
    cellAt s r c = (flattenCells s).getD (3 * r + c) (some 0) := by
  obtain ⟨a, b, c0, d, e, f, g, h, i, rfl⟩ := wf3_destruct _ hs
  interval_cases r <;> interval_cases c <;> rfl

theorem swap_flatten_perm (s : Board) (hs : Wf3 s) (r1 c1 r2 c2 : Nat)
    (h1 : r1 < 3) (h2 : c1 < 3) (h3 : r2 < 3) (h4 : c2 < 3) :
    (flattenCells (swap s r1 c1 r2 c2)).Perm (flattenCells s) := by
  have hw1 : Wf3 (setCell s r1 c1 (cellAt s r2 c2)) := wf3_setCell s hs r1 c1 _
  unfold swap
  rw [flatten_setCell _ hw1 r2 c2 h3 h4, flatten_setCell _ hs r1 c1 h1 h2,
    cellAt_flatten s hs r2 c2 h3 h4, cellAt_flatten s hs r1 c1 h1 h2]
  exact set_set_perm (flattenCells s) (3 * r1 + c1) (3 * r2 + c2) (some 0)
    (by rw [flatten_length s hs]; omega) (by rw [flatten_length s hs]; omega)

theorem action_cases (s : Board) (hv : ValidBoard s) :
    ∀ f ∈ get_available_actions s, ∃ r2 c2, r2 < 3 ∧ c2 < 3 ∧
      f s = swap s (find_empty s).1 (find_empty s).2 r2 c2 ∧
      ((r2 = (find_empty s).1 + 1 ∧ c2 = (find_empty s).2) ∨
       ((find_empty s).1 = r2 + 1 ∧ c2 = (find_empty s).2) ∨
       (c2 = (find_empty s).2 + 1 ∧ r2 = (find_empty s).1) ∨
       ((find_empty s).2 = c2 + 1 ∧ r2 = (find_empty s).1)) := by
  intro f hf
  obtain ⟨h1, h2, _⟩ := find_empty_spec s hv
  unfold get_available_actions at hf
  simp only [List.mem_append] at hf
  rcases hf with ((hu | hd) | hl) | hr
  · by_cases hguard : 0 < (find_empty s).1
    · rw [if_pos hguard] at hu
      rw [List.mem_singleton] at hu
      subst hu
      exact ⟨(find_empty s).1 - 1, (find_empty s).2, by omega, h2, rfl,
        Or.inr (Or.inl ⟨by omega, rfl⟩)⟩
    · rw [if_neg hguard] at hu
      simp at hu
  · by_cases hguard : (find_empty s).1 < BOARD_SIZE - 1
    · rw [if_pos hguard] at hd
      rw [List.mem_singleton] at hd
      subst hd
      have hg : (find_empty s).1 < 2 := hguard
      exact ⟨(find_empty s).1 + 1, (find_empty s).2, by omega, h2, rfl,
        Or.inl ⟨rfl, rfl⟩⟩
    · rw [if_neg hguard] at hd
      simp at hd
  · by_cases hguard : 0 < (find_empty s).2
    · rw [if_pos hguard] at hl
      rw [List.mem_singleton] at hl
      subst hl
      exact ⟨(find_empty s).1, (find_empty s).2 - 1, h1, by omega, rfl,
        Or.inr (Or.inr (Or.inr ⟨by omega, rfl⟩))⟩
    · rw [if_neg hguard] at hl
      simp at hl
  · by_cases hguard : (find_empty s).2 < BOARD_SIZE - 1
    · rw [if_pos hguard] at hr
      rw [List.mem_singleton] at hr
      subst hr
      have hg : (find_empty s).2 < 2 := hguard
      exact ⟨(find_empty s).1, (find_empty s).2 + 1, h1, by omega, rfl,
        Or.inr (Or.inr (Or.inl ⟨rfl, rfl⟩))⟩
    · rw [if_neg hguard] at hr
      simp at hr

theorem action_valid (s : Board) (hv : ValidBoard s) :
    ∀ f ∈ get_available_actions s, ValidBoard (f s) := by
  intro f hf
  obtain ⟨r2, c2, hr2, hc2, heq, _⟩ := action_cases s hv f hf
  obtain ⟨he1, he2, _⟩ := find_empty_spec s hv
  rw [heq]
  refine ⟨?_, ?_⟩
  · unfold swap
    exact wf3_setCell _ (wf3_setCell s hv.1 _ _ _) _ _ _
  · exact (swap_flatten_perm s hv.1 _ _ r2 c2 he1 he2 hr2 hc2).trans hv.2

theorem action_parity (s : Board) (hv : ValidBoard s) :
    ∀ f ∈ get_available_actions s,
      is_problem_solvable (board_values (f s)) = is_problem_solvable (board_values s) := by
  intro f hf
  obtain ⟨r2, c2, hr2, hc2, heq, hadj⟩ := action_cases s hv f hf
  obtain ⟨he1, he2, he3⟩ := find_empty_spec s hv
  rw [heq]
  exact swap_parity s hv _ _ r2 c2 he1 he2 hr2 hc2 he3 hadj

theorem cell_of_term_zero : ∀ x ∈ goalFlat, ∀ r, r < 3 → ∀ c, c < 3 →
    cellTerm x r c = 0 → x = cellAt goalBoard r c := by decide

theorem heuristic_zero_goal (s : Board) (hv : ValidBoard s)
    (h0 : heuristic_cost s = 0) : s = goalBoard := by
  obtain ⟨a, b, c, d, e, f, g, h, i, rfl⟩ := wf3_destruct _ hv.1
  have hm0 : a ∈ goalFlat := hv.2.subset (by simp [flattenCells])
  have hm1 : b ∈ goalFlat := hv.2.subset (by simp [flattenCells])
  have hm2 : c ∈ goalFlat := hv.2.subset (by simp [flattenCells])
  have hm3 : d ∈ goalFlat := hv.2.subset (by simp [flattenCells])
  have hm4 : e ∈ goalFlat := hv.2.subset (by simp [flattenCells])
  have hm5 : f ∈ goalFlat := hv.2.subset (by simp [flattenCells])
  have hm6 : g ∈ goalFlat := hv.2.subset (by simp [flattenCells])
  have hm7 : h ∈ goalFlat := hv.2.subset (by simp [flattenCells])
  have hm8 : i ∈ goalFlat := hv.2.subset (by simp [flattenCells])
  rw [heuristic_cost_explicit] at h0
  have t0 : cellTerm a 0 0 = 0 := by omega
  have t1 : cellTerm b 0 1 = 0 := by omega
  have t2 : cellTerm c 0 2 = 0 := by omega
  have t3 : cellTerm d 1 0 = 0 := by omega
  have t4 : cellTerm e 1 1 = 0 := by omega
  have t5 : cellTerm f 1 2 = 0 := by omega
  have t6 : cellTerm g 2 0 = 0 := by omega
  have t7 : cellTerm h 2 1 = 0 := by omega
  have t8 : cellTerm i 2 2 = 0 := by omega
  have e0 := cell_of_term_zero a hm0 0 (by omega) 0 (by omega) t0
  have e1 := cell_of_term_zero b hm1 0 (by omega) 1 (by omega) t1
  have e2 := cell_of_term_zero c hm2 0 (by omega) 2 (by omega) t2
  have e3 := cell_of_term_zero d hm3 1 (by omega) 0 (by omega) t3
  have e4 := cell_of_term_zero e hm4 1 (by omega) 1 (by omega) t4
  have e5 := cell_of_term_zero f hm5 1 (by omega) 2 (by omega) t5
  have e6 := cell_of_term_zero g hm6 2 (by omega) 0 (by omega) t6
  have e7 := cell_of_term_zero h hm7 2 (by omega) 1 (by omega) t7
  have e8 := cell_of_term_zero i hm8 2 (by omega) 2 (by omega) t8
  rw [e0, e1, e2, e3, e4, e5, e6, e7, e8]
  rfl

theorem expand_error (ks : Nat → Nat) (pc : Nat) (pp : List Board)
    (vis : List Board) :
    ∀ (succs : List Board) (q : List Entry) (ctr : Nat) (p : List Board),
    expand ks pc pp vis succs q ctr = Except.error p →
    ∃ s ∈ succs, s ∉ vis ∧ heuristic_cost s = 0 ∧ p = s :: pp := by
  intro succs
  induction succs with
  | nil =>
    intro q ctr p h
    rw [expand] at h
    exact absurd h (by simp)
  | cons s rest ih =>
    intro q ctr p h
    rw [expand] at h
    by_cases hs : s ∈ vis
    · rw [if_pos hs] at h
      obtain ⟨s', hmem, hnv, hc, hp⟩ := ih q ctr p h
      exact ⟨s', List.mem_cons_of_mem s hmem, hnv, hc, hp⟩
    · rw [if_neg hs] at h
      simp only [] at h
      by_cases hc : heuristic_cost s = 0
      · rw [if_pos hc] at h
        simp only [Except.error.injEq] at h
        exact ⟨s, List.mem_cons_self s rest, hs, hc, h.symm⟩
      · rw [if_neg hc] at h
        obtain ⟨s', hmem, hnv, hc', hp⟩ := ih _ _ p h
        exact ⟨s', List.mem_cons_of_mem s hmem, hnv, hc', hp⟩

theorem expand_ok_char (ks : Nat → Nat) (pc : Nat) (pp : List Board)
    (vis : List Board) :
    ∀ (succs : List Board) (q : List Entry) (ctr : Nat) (q2 : List Entry)
      (ctr2 : Nat),
    expand ks pc pp vis succs q ctr = Except.ok (q2, ctr2) →
    ∀ e ∈ q2, e ∈ q ∨ ∃ s ∈ succs, s ∉ vis ∧ e.path = s :: pp := by
  intro succs
  induction succs with
  | nil =>
    intro q ctr q2 ctr2 h e he
    rw [expand] at h
    simp only [Except.ok.injEq, Prod.mk.injEq] at h
    obtain ⟨rfl, rfl⟩ := h
    exact Or.inl he
  | cons s rest ih =>
    intro q ctr q2 ctr2 h e he
    rw [expand] at h
    by_cases hs : s ∈ vis
    · rw [if_pos hs] at h
      rcases ih q ctr q2 ctr2 h e he with hq | ⟨s', hmem, hnv, hp⟩
      · exact Or.inl hq
      · exact Or.inr ⟨s', List.mem_cons_of_mem s hmem, hnv, hp⟩
    · rw [if_neg hs] at h
      simp only [] at h
      by_cases hc : heuristic_cost s = 0
      · rw [if_pos hc] at h
        exact absurd h (by simp)
      · rw [if_neg hc] at h
        rcases ih _ _ q2 ctr2 h e he with hq | ⟨s', hmem, hnv, hp⟩
        · rcases List.mem_append.mp hq with hq1 | hq2
          · exact Or.inl hq1
          · have : e = ⟨heuristic_cost s + pc, ks ctr, s :: pp⟩ := by
              simpa using hq2
            subst this
            exact Or.inr ⟨s, List.mem_cons_self s rest, hs, rfl⟩
        · exact Or.inr ⟨s', List.mem_cons_of_mem s hmem, hnv, hp⟩

theorem expand_filter (ks : Nat → Nat) (pc : Nat) (pp : List Board)
    (vis : List Board) :
    ∀ (succs : List Board) (q : List Entry) (ctr : Nat) (q2 : List Entry)
      (ctr2 : Nat),
    expand ks pc pp vis succs q ctr = Except.ok (q2, ctr2) →
    (q2.filter (fun e => decide (e.path.headD [] ∈ vis))).length =
      (q.filter (fun e => decide (e.path.headD [] ∈ vis))).length := by
  intro succs
  induction succs with
  | nil =>
    intro q ctr q2 ctr2 h
    rw [expand] at h
    simp only [Except.ok.injEq, Prod.mk.injEq] at h
    obtain ⟨rfl, rfl⟩ := h
    rfl
  | cons s rest ih =>
    intro q ctr q2 ctr2 h
    rw [expand] at h
    by_cases hs : s ∈ vis
    · rw [if_pos hs] at h
      exact ih q ctr q2 ctr2 h
    · rw [if_neg hs] at h
      simp only [] at h
      by_cases hc : heuristic_cost s = 0
      · rw [if_pos hc] at h
        exact absurd h (by simp)
      · rw [if_neg hc] at h
        have := ih _ _ q2 ctr2 h
        rw [this, List.filter_append]
        simp [hs]

/-- Invariant carried by every frontier entry: a non-empty path whose head
is a valid board. -/
def EntryInv (e : Entry) : Prop :=
  e.path ≠ [] ∧ ValidBoard (e.path.headD [])

/-- Loop invariant: every frontier entry satisfies `EntryInv`. -/
def QInv (st : SearchState) : Prop :=
  ∀ e ∈ st.queue, EntryInv e

theorem step_next_elim (ks : Nat → Nat) (st st' : SearchState)
    (h : step ks st = StepResult.next st') :
    ∃ e0 rest q2 ctr2, popMin st.queue = some (e0, rest) ∧
      expand ks e0.priority e0.path (e0.path.headD [] :: st.visited)
        ((get_available_actions (e0.path.headD [])).map
          (fun action => action (e0.path.headD []))) rest st.ctr
        = Except.ok (q2, ctr2) ∧
      st' = ⟨q2, e0.path.headD [] :: st.visited, ctr2⟩ := by
  unfold step at h
  rcases hp : popMin st.queue with _ | ⟨e0, rest⟩
  · rw [hp] at h
    exact absurd h (by simp)
  · rw [hp] at h
    simp only [] at h
    rcases he : expand ks e0.priority e0.path (e0.path.headD [] :: st.visited)
        ((get_available_actions (e0.path.headD [])).map
          (fun action => action (e0.path.headD []))) rest st.ctr with p | ⟨q2, ctr2⟩
    · rw [he] at h
      exact absurd h (by simp)
    · rw [he] at h
      simp only [StepResult.next.injEq] at h
      exact ⟨e0, rest, q2, ctr2, rfl, he, h.symm⟩

theorem step_found_elim (ks : Nat → Nat) (st : SearchState) (p : List Board)
    (h : step ks st = StepResult.found p) :
    ∃ e0 rest, popMin st.queue = some (e0, rest) ∧
      expand ks e0.priority e0.path (e0.path.headD [] :: st.visited)
        ((get_available_actions (e0.path.headD [])).map
          (fun action => action (e0.path.headD []))) rest st.ctr
        = Except.error p := by
  unfold step at h
  rcases hp : popMin st.queue with _ | ⟨e0, rest⟩
  · rw [hp] at h
    exact absurd h (by simp)
  · rw [hp] at h
    simp only [] at h
    rcases he : expand ks e0.priority e0.path (e0.path.headD [] :: st.visited)
        ((get_available_actions (e0.path.headD [])).map
          (fun action => action (e0.path.headD []))) rest st.ctr with p' | ⟨q2, ctr2⟩
    · rw [he] at h
      simp only [StepResult.found.injEq] at h
      exact ⟨e0, rest, rfl, h ▸ he⟩
    · rw [he] at h
      exact absurd h (by simp)

theorem step_next_inv (ks : Nat → Nat) (st st' : SearchState) (hq : QInv st)
    (h : step ks st = StepResult.next st') : QInv st' := by
  obtain ⟨e0, rest, q2, ctr2, hpop, hexp, rfl⟩ := step_next_elim ks st st' h
  have hperm := popMin_perm st.queue e0 rest hpop
  have he0 : EntryInv e0 := hq e0 (hperm.symm.subset (List.mem_cons_self e0 rest))
  intro e he
  rcases expand_ok_char ks e0.priority e0.path _ _ rest st.ctr q2 ctr2 hexp e he with
    hr | ⟨s, hmem, _, hp⟩
  · exact hq e (hperm.symm.subset (List.mem_cons_of_mem e0 hr))
  · obtain ⟨f, hf, rfl⟩ := List.mem_map.mp hmem
    refine ⟨by rw [hp]; simp, ?_⟩
    rw [hp]
    simpa using action_valid (e0.path.headD []) he0.2 f hf

/-- Rebuild a 3×3 grid from its row-major cell list. -/
def unflattenCells (l : List Cell) : Board :=
  [l.take 3, (l.drop 3).take 3, l.drop 6]

/-- The finitely many valid boards: the rearrangements of the goal cells. -/
def allPerms : Finset Board :=
  (goalFlat.permutations.map unflattenCells).toFinset

theorem mem_allPerms (s : Board) (hv : ValidBoard s) : s ∈ allPerms := by
  obtain ⟨a, b, c, d, e, f, g, h, i, rfl⟩ := wf3_destruct _ hv.1
  refine List.mem_toFinset.mpr (List.mem_map.mpr
    ⟨flattenCells [[a, b, c], [d, e, f], [g, h, i]], ?_, rfl⟩)
  exact List.mem_permutations.mpr hv.2

/-- Number of valid boards not yet in the visited list. -/
def measU (st : SearchState) : Nat :=
  (allPerms \ st.visited.toFinset).card

/-- Number of frontier entries whose state is already visited. -/
def measV (st : SearchState) : Nat :=
  (st.queue.filter (fun e => decide (e.path.headD [] ∈ st.visited))).length

theorem step_next_dec (ks : Nat → Nat) (st st' : SearchState) (hq : QInv st)
    (h : step ks st = StepResult.next st') :
    measU st' < measU st ∨ (measU st' = measU st ∧ measV st' < measV st) := by
  obtain ⟨e0, rest, q2, ctr2, hpop, hexp, rfl⟩ := step_next_elim ks st st' h
  have hperm := popMin_perm st.queue e0 rest hpop
  by_cases hvis : e0.path.headD [] ∈ st.visited
  · right
    constructor
    · unfold measU
      congr 1
      rw [show (SearchState.mk q2 (e0.path.headD [] :: st.visited) ctr2).visited =
        e0.path.headD [] :: st.visited from rfl]
      rw [List.toFinset_cons, Finset.insert_eq_self.mpr (List.mem_toFinset.mpr hvis)]
    · unfold measV
      have h1 := expand_filter ks e0.priority e0.path (e0.path.headD [] :: st.visited)
        _ rest st.ctr q2 ctr2 hexp
      have h2 : rest.filter
            (fun e => decide (e.path.headD [] ∈ e0.path.headD [] :: st.visited)) =
          rest.filter (fun e => decide (e.path.headD [] ∈ st.visited)) := by
        apply List.filter_congr
        intro e _
        apply decide_eq_decide.mpr
        constructor
        · intro hm
          rcases List.mem_cons.mp hm with heq | hm2
          · rw [heq]; exact hvis
          · exact hm2
        · exact fun hm => List.mem_cons_of_mem _ hm
      have h3 : (st.queue.filter (fun e => decide (e.path.headD [] ∈ st.visited))).length =
          ((e0 :: rest).filter (fun e => decide (e.path.headD [] ∈ st.visited))).length :=
        (hperm.filter _).length_eq
      rw [h3]
      rw [List.filter_cons_of_pos (by simpa using hvis)]
      simp only [List.length_cons]
      rw [h1, h2]
      omega
  · left
    have hcv : ValidBoard (e0.path.headD []) :=
      (hq e0 (hperm.symm.subset (List.mem_cons_self e0 rest))).2
    have hmem : e0.path.headD [] ∈ allPerms := mem_allPerms _ hcv
    unfold measU
    apply Finset.card_lt_card
    rw [show (SearchState.mk q2 (e0.path.headD [] :: st.visited) ctr2).visited =
      e0.path.headD [] :: st.visited from rfl]
    rw [List.toFinset_cons]
    refine (Finset.ssubset_iff_of_subset
      (Finset.sdiff_subset_sdiff (Finset.Subset.refl _) (Finset.subset_insert _ _))).mpr ?_
    refine ⟨e0.path.headD [], Finset.mem_sdiff.mpr
      ⟨hmem, fun hc => hvis (List.mem_toFinset.mp hc)⟩, ?_⟩
    intro hc
    exact (Finset.mem_sdiff.mp hc).2 (Finset.mem_insert_self _ _)

theorem solve_terminates (ks : Nat → Nat) (J : SearchState → Prop)
    (hJnext : ∀ st st', QInv st → J st → step ks st = StepResult.next st' → J st')
    (hJfound : ∀ st p, QInv st → J st → step ks st ≠ StepResult.found p) :
    ∀ u v st, QInv st → J st → measU st = u → measV st = v →
    ∃ n, solveLoop ks n st = some none := by
  intro u
  induction u using Nat.strong_induction_on with
  | _ u ihu =>
    intro v
    induction v using Nat.strong_induction_on with
    | _ v ihv =>
      intro st hQ hJ hu hv
      rcases hstep : step ks st with p | _ | st'
      · exact absurd hstep (hJfound st p hQ hJ)
      · exact ⟨1, by rw [show (1 : Nat) = Nat.succ 0 from rfl, solveLoop, hstep]⟩
      · have hQ2 := step_next_inv ks st st' hQ hstep
        have hJ2 := hJnext st st' hQ hJ hstep
        rcases step_next_dec ks st st' hQ hstep with hlt | ⟨heq, hlt⟩
        · obtain ⟨n, hn⟩ := ihu (measU st') (by omega) (measV st') st' hQ2 hJ2 rfl rfl
          exact ⟨n + 1, by rw [show n + 1 = Nat.succ n from rfl, solveLoop, hstep]; exact hn⟩
        · obtain ⟨n, hn⟩ := ihv (measV st') (by omega) st' hQ2 hJ2 (by omega) rfl
          exact ⟨n + 1, by rw [show n + 1 = Nat.succ n from rfl, solveLoop, hstep]; exact hn⟩

theorem step_found_goal (ks : Nat → Nat) (st : SearchState) (p : List Board)
    (hQ : QInv st) (h : step ks st = StepResult.found p) :
    ∃ e0 rest, popMin st.queue = some (e0, rest) ∧
      goalBoard ∉ st.visited ∧ goalBoard ≠ e0.path.headD [] ∧
      is_problem_solvable (board_values (e0.path.headD [])) =
        is_problem_solvable (board_values goalBoard) := by
  obtain ⟨e0, rest, hpop, hexp⟩ := step_found_elim ks st p h
  have hperm := popMin_perm st.queue e0 rest hpop
  have hcv : ValidBoard (e0.path.headD []) :=
    (hQ e0 (hperm.symm.subset (List.mem_cons_self e0 rest))).2
  obtain ⟨s, hmem, hnv, hc0, _⟩ :=
    expand_error ks e0.priority e0.path _ _ rest st.ctr p hexp
  obtain ⟨f, hf, rfl⟩ := List.mem_map.mp hmem
  have hsv : ValidBoard (f (e0.path.headD [])) := action_valid _ hcv f hf
  have hsg : f (e0.path.headD []) = goalBoard := heuristic_zero_goal _ hsv hc0
  have hpar := action_parity _ hcv f hf
  rw [hsg] at hpar hnv
  refine ⟨e0, rest, hpop, ?_, ?_, hpar.symm⟩
  · intro hg
    exact hnv (List.mem_cons_of_mem _ hg)
  · intro hg
    exact hnv (by rw [hg]; exact List.mem_cons_self _ _)

/-- Invariant for a search started at the goal: the goal is in the visited
set, or every frontier path still starts at the goal. -/
def J1 (st : SearchState) : Prop :=
  goalBoard ∈ st.visited ∨ ∀ e ∈ st.queue, e.path.headD [] = goalBoard

theorem j1_next (ks : Nat → Nat) (st st' : SearchState) (hQ : QInv st) (hJ : J1 st)
    (h : step ks st = StepResult.next st') : J1 st' := by
  obtain ⟨e0, rest, q2, ctr2, hpop, hexp, rfl⟩ := step_next_elim ks st st' h
  have hperm := popMin_perm st.queue e0 rest hpop
  rcases hJ with hg | hall
  · exact Or.inl (List.mem_cons_of_mem _ hg)
  · have hcur : e0.path.headD [] = goalBoard :=
      hall e0 (hperm.symm.subset (List.mem_cons_self e0 rest))
    exact Or.inl (by rw [hcur.symm]; exact List.mem_cons_self _ _)

theorem j1_found (ks : Nat → Nat) (st : SearchState) (p : List Board)
    (hQ : QInv st) (hJ : J1 st) : step ks st ≠ StepResult.found p := by
  intro h
  obtain ⟨e0, rest, hpop, hgnv, hgne, _⟩ := step_found_goal ks st p hQ h
  have hperm := popMin_perm st.queue e0 rest hpop
  rcases hJ with hg | hall
  · exact hgnv hg
  · exact hgne (hall e0 (hperm.symm.subset (List.mem_cons_self e0 rest))).symm

/-- The state one move from the goal used by the spec's walkthrough. -/
def oneAwayBoard : Board :=
  [[some 1, some 2, some 3], [some 4, some 5, some 6], [some 7, none, some 8]]

theorem step_oneAway (ks : Nat → Nat) :
    step ks (init_state ks oneAwayBoard) =
      StepResult.found [goalBoard, oneAwayBoard] := by
  unfold step
  rw [show popMin (init_state ks oneAwayBoard).queue =
    some (⟨0, ks 0, [oneAwayBoard]⟩, []) from rfl]
  simp only [init_state]
  rw [show (get_available_actions ((Entry.mk 0 (ks 0) [oneAwayBoard]).path.headD [])).map
      (fun a => a ((Entry.mk 0 (ks 0) [oneAwayBoard]).path.headD [])) =
    [[[some 1, some 2, some 3], [some 4, none, some 6], [some 7, some 5, some 8]],
     [[some 1, some 2, some 3], [some 4, some 5, some 6], [none, some 7, some 8]],
     [[some 1, some 2, some 3], [some 4, some 5, some 6], [some 7, some 8, none]]] from rfl]
  rw [show ([oneAwayBoard].headD []) = oneAwayBoard from rfl]
  rw [show expand ks 0 [oneAwayBoard] [oneAwayBoard]
      [[[some 1, some 2, some 3], [some 4, none, some 6], [some 7, some 5, some 8]],
       [[some 1, some 2, some 3], [some 4, some 5, some 6], [none, some 7, some 8]],
       [[some 1, some 2, some 3], [some 4, some 5, some 6], [some 7, some 8, none]]]
      [] 1 = Except.error [goalBoard, oneAwayBoard] from rfl]

/-- Claim C1 (code-bug exhibit): the goal test runs only on newly generated
successors, never on the state handed to `solve_puzzle`.  Feeding the goal
state directly therefore never returns a length-1 path: for every tie-break
stream the search runs to frontier exhaustion and returns `None` after some
finite fuel.  The second half of the claim does hold: from the state
`[[1,2,3],[4,5,6],[7,empty,8]]` one iteration returns the length-2 path
(goal node with the initial state as its parent). -/
theorem c1_goal_input_no_length_one_path :
    (∀ ks : Nat → Nat, ∃ n, solve_puzzle ks n goalBoard = some none) ∧
    (∀ ks : Nat → Nat, solve_puzzle ks 1 oneAwayBoard =
      some (some [goalBoard, oneAwayBoard])) := by
  constructor
  · intro ks
    have hQ : QInv (init_state ks goalBoard) := by
      intro e he
      simp only [init_state, List.mem_singleton] at he
      subst he
      exact ⟨by simp, (by decide : ValidBoard goalBoard)⟩
    have hJ : J1 (init_state ks goalBoard) := by
      refine Or.inr ?_
      intro e he
      simp only [init_state, List.mem_singleton] at he
      subst he
      rfl
    exact solve_terminates ks J1 (j1_next ks) (j1_found ks)
      (measU (init_state ks goalBoard)) (measV (init_state ks goalBoard))
      (init_state ks goalBoard) hQ hJ rfl rfl
  · intro ks
    show solveLoop ks 1 (init_state ks oneAwayBoard) = _
    rw [show (1 : Nat) = Nat.succ 0 from rfl, solveLoop, step_oneAway ks]

/-- Invariant for a search started at an unsolvable state: every frontier
path head fails the solvability test. -/
def J2 (st : SearchState) : Prop :=
  ∀ e ∈ st.queue, is_problem_solvable (board_values (e.path.headD [])) = false

theorem j2_next (ks : Nat → Nat) (st st' : SearchState) (hQ : QInv st) (hJ : J2 st)
    (h : step ks st = StepResult.next st') : J2 st' := by
  obtain ⟨e0, rest, q2, ctr2, hpop, hexp, rfl⟩ := step_next_elim ks st st' h
  have hperm := popMin_perm st.queue e0 rest hpop
  have he0q : e0 ∈ st.queue := hperm.symm.subset (List.mem_cons_self e0 rest)
  have hcv : ValidBoard (e0.path.headD []) := (hQ e0 he0q).2
  intro e he
  rcases expand_ok_char ks e0.priority e0.path _ _ rest st.ctr q2 ctr2 hexp e he with
    hr | ⟨s, hmem, _, hp⟩
  · exact hJ e (hperm.symm.subset (List.mem_cons_of_mem e0 hr))
  · obtain ⟨f, hf, rfl⟩ := List.mem_map.mp hmem
    have hpar := action_parity _ hcv f hf
    rw [hp]
    simp only [List.headD_cons]
    rw [hpar]
    exact hJ e0 he0q

theorem j2_found (ks : Nat → Nat) (st : SearchState) (p : List Board)
    (hQ : QInv st) (hJ : J2 st) : step ks st ≠ StepResult.found p := by
  intro h
  obtain ⟨e0, rest, hpop, _, _, hpar⟩ := step_found_goal ks st p hQ h
  have hperm := popMin_perm st.queue e0 rest hpop
  have hf := hJ e0 (hperm.symm.subset (List.mem_cons_self e0 rest))
  rw [hf] at hpar
  rw [show is_problem_solvable (board_values goalBoard) = true from by decide] at hpar
  exact Bool.noConfusion hpar

/-- Claim C6: a valid initial state with an odd inversion count (empty
marker excluded) makes `solve_puzzle` terminate with `None`: expansion
preserves the inversion parity of the frontier, so the goal (even parity)
is never generated, and the visited set forces the finitely many reachable
states to run out. -/
theorem c6_unsolvable_terminates_none (ks : Nat → Nat) (s0 : Board)
    (hv : ValidBoard s0)
    (hodd : Odd (spec_inversion_count 9 (board_values s0))) :
    ∃ n, solve_puzzle ks n s0 = some none := by
  have hlen : (board_values s0).length = 9 := by
    unfold board_values
    rw [List.length_map, flatten_length s0 hv.1]
  have hsolv : is_problem_solvable (board_values s0) = false := by
    have h1 : solvable_inversions (board_values s0) =
        spec_inversion_count (board_values s0).length (board_values s0) := rfl
    unfold is_problem_solvable
    rw [h1, hlen]
    obtain ⟨k, hk⟩ := hodd
    rw [hk]
    rw [beq_eq_false_iff_ne]
    omega
  have hQ : QInv (init_state ks s0) := by
    intro e he
    simp only [init_state, List.mem_singleton] at he
    subst he
    exact ⟨by simp, by simpa using hv⟩
  have hJ : J2 (init_state ks s0) := by
    intro e he
    simp only [init_state, List.mem_singleton] at he
    subst he
    simpa using hsolv
  exact solve_terminates ks J2 (j2_next ks) (j2_found ks)
    (measU (init_state ks s0)) (measV (init_state ks s0)) (init_state ks s0) hQ hJ rfl rfl

theorem c6_unsolvable_terminates_none_witness :
    ∃ n, solve_puzzle (fun k => k) n
      [[some 2, some 1, some 3], [some 4, some 5, some 6], [some 7, some 8, none]] =
      some none :=
  c6_unsolvable_terminates_none (fun k => k)
    [[some 2, some 1, some 3], [some 4, some 5, some 6], [some 7, some 8, none]]
    (by decide) (by decide)
